import Mathlib

/-!
Verification development for `generate_feed.py`, a single-file RSS feed
generator.  The Python source is shallowly embedded below: pure helper
functions become Lean functions on `List Char` / `String`, Python
`datetime` values become the `PyDateTime` structure, fallible code
returns `Option`, and the network `fetch` capability is passed in as an
oracle `String → Option String` (`none` models a raised exception).
-/

set_option maxRecDepth 8000

namespace EasFeed

/-! ### ASCII character helpers

Python string predicates are modelled on their ASCII subset: the inputs
of interest (HTML, ISO timestamps, month names) are ASCII, and the
claims never exercise the non-ASCII corners of `str.strip`, `str.split`
or `str.lower`. -/

/-- Characters treated as whitespace by Python `str.strip()` / `str.split()`
(ASCII subset). -/
def isPyWs (c : Char) : Bool :=
  c == ' ' || c == '\t' || c == '\n' || c == '\r' || c == '\x0b' || c == '\x0c'

def isAsciiDigit (c : Char) : Bool :=
  '0' ≤ c && c ≤ '9'

def isAsciiUpper (c : Char) : Bool :=
  'A' ≤ c && c ≤ 'Z'

def isAsciiLower (c : Char) : Bool :=
  'a' ≤ c && c ≤ 'z'

def isAsciiAlpha (c : Char) : Bool :=
  isAsciiUpper c || isAsciiLower c

/-- Word characters for the regex `\w` / `\b` classes (ASCII subset). -/
def isWordChar (c : Char) : Bool :=
  isAsciiAlpha c || isAsciiDigit c || c == '_'

/-- ASCII lower-casing, as used by Python's `str.lower()` on ASCII input. -/
def asciiLower (c : Char) : Char :=
  if isAsciiUpper c then Char.ofNat (c.toNat + 32) else c

def lowerList (cs : List Char) : List Char := cs.map asciiLower

/-- Numeric value of an ASCII digit character. -/
def digitVal (c : Char) : Nat := c.toNat - 48

/-- Decimal value of a digit list (most significant first). -/
def digitsToNat (cs : List Char) : Nat :=
  cs.foldl (fun acc c => acc * 10 + digitVal c) 0

/-- `str.strip()` (ASCII whitespace model). -/
def pyStripList (cs : List Char) : List Char :=
  ((cs.dropWhile isPyWs).reverse.dropWhile isPyWs).reverse

/-- `str.rstrip("/")`: remove every trailing slash. -/
def rstripSlashList (cs : List Char) : List Char :=
  (cs.reverse.dropWhile (fun c => c == '/')).reverse

/-- `str.split()` with no argument: split on whitespace runs, dropping
empty pieces.  `acc` holds the current word reversed. -/
def splitWsAux : List Char → List Char → List (List Char)
  | [], acc => if acc.isEmpty then [] else [acc.reverse]
  | c :: rest, acc =>
      if isPyWs c then
        if acc.isEmpty then splitWsAux rest []
        else acc.reverse :: splitWsAux rest []
      else splitWsAux rest (c :: acc)

/-- `" ".join(text.strip().split())`: collapse whitespace runs to single
spaces and trim the ends.  (The leading `strip()` is redundant given
`split()` but is kept from the source.) -/
def normalizeWsList (cs : List Char) : List Char :=
  List.intercalate [' '] (splitWsAux (pyStripList cs) [])

/-! ### Calendar arithmetic -/

/-- Gregorian leap year, as in Python's `calendar`/`datetime`. -/
def isLeap (y : Nat) : Bool :=
  (y % 4 == 0 && y % 100 != 0) || y % 400 == 0

def daysInMonth (y m : Nat) : Nat :=
  if m == 2 then (if isLeap y then 29 else 28)
  else if m == 4 || m == 6 || m == 9 || m == 11 then 30
  else 31

/-- Days since 1970-01-01 of a civil date (proleptic Gregorian), the
arithmetic underlying `datetime.toordinal`.  Defined for `y ≥ 1`. -/
def daysFromCivil (y m d : Nat) : Int :=
  let yAdj : Nat := if m ≤ 2 then y - 1 else y
  let era : Nat := yAdj / 400
  let yoe : Nat := yAdj % 400
  let mp : Nat := if m > 2 then m - 3 else m + 9
  let doy : Nat := (153 * mp + 2) / 5 + d - 1
  let doe : Nat := yoe * 365 + yoe / 4 - yoe / 100 + doy
  (era * 146097 + doe : Nat) - 719468

/-! ### The `datetime` model

Python `datetime.datetime` restricted to what the program uses: civil
fields plus an optional fixed UTC offset in seconds (`none` models a
naive datetime; `some 0` models `timezone.utc`). -/

structure PyDateTime where
  year : Nat
  month : Nat
  day : Nat
  hour : Nat
  minute : Nat
  second : Nat
  usec : Nat
  offSec : Option Int
deriving DecidableEq, Repr

/-- The `datetime(...)` constructor: validates field ranges, raising
(`none`) otherwise. -/
def mkDateTime (y mo d h mi s us : Nat) (off : Option Int) : Option PyDateTime :=
  if 1 ≤ y && y ≤ 9999 && 1 ≤ mo && mo ≤ 12 && 1 ≤ d && d ≤ daysInMonth y mo
      && h ≤ 23 && mi ≤ 59 && s ≤ 59 && us ≤ 999999
  then some ⟨y, mo, d, h, mi, s, us, off⟩ else none

/-- Seconds since the epoch denoted by an aware datetime (offset `off`),
used as the semantic "UTC instant" of a datetime (microseconds aside). -/
def toInstantSec (dt : PyDateTime) : Int :=
  daysFromCivil dt.year dt.month dt.day * 86400
    + (dt.hour * 3600 + dt.minute * 60 + dt.second : Nat)
    - dt.offSec.getD 0

/-- Previous calendar day; `none` when it would leave the supported
year range (Python raises `OverflowError`). -/
def prevDay (y m d : Nat) : Option (Nat × Nat × Nat) :=
  if d > 1 then some (y, m, d - 1)
  else if m > 1 then some (y, m - 1, daysInMonth y (m - 1))
  else if y > 1 then some (y - 1, 12, 31)
  else none

/-- Next calendar day; `none` when it would leave the supported year
range. -/
def nextDay (y m d : Nat) : Option (Nat × Nat × Nat) :=
  if d < daysInMonth y m then some (y, m, d + 1)
  else if m < 12 then some (y, m + 1, 1)
  else if y < 9999 then some (y + 1, 1, 1)
  else none

/-- `dt.astimezone(timezone.utc)` for an aware datetime: shift the civil
fields by the offset.  The program only ever parses offsets strictly
smaller than one day, so the date moves by at most one day; `none`
models Python's `OverflowError` at the ends of the year range (and the
unreachable naive case). -/
def astimezoneUTC (dt : PyDateTime) : Option PyDateTime :=
  match dt.offSec with
  | none => none
  | some off =>
      let tod : Int := (dt.hour * 3600 + dt.minute * 60 + dt.second : Nat)
      let total : Int := tod - off
      if 0 ≤ total ∧ total < 86400 then
        let t : Nat := total.toNat
        some ⟨dt.year, dt.month, dt.day, t / 3600, t / 60 % 60, t % 60, dt.usec, some 0⟩
      else if total < 0 then
        match prevDay dt.year dt.month dt.day with
        | none => none
        | some (y, m, d) =>
            let t : Nat := (total + 86400).toNat
            some ⟨y, m, d, t / 3600, t / 60 % 60, t % 60, dt.usec, some 0⟩
      else
        match nextDay dt.year dt.month dt.day with
        | none => none
        | some (y, m, d) =>
            let t : Nat := (total - 86400).toNat
            some ⟨y, m, d, t / 3600, t / 60 % 60, t % 60, dt.usec, some 0⟩

/-! ### strptime-style month/day grammars

`datetime.strptime` (C locale) month directives: `%b` matches the
abbreviated names, `%B` the full names, both case-insensitively (the
implementation lower-cases the input).  No name in either table is a
proper prefix of another in the same table. -/

def abbrevMonthNames : List String :=
  ["jan", "feb", "mar", "apr", "may", "jun", "jul", "aug", "sep", "oct", "nov", "dec"]

def fullMonthNames : List String :=
  ["january", "february", "march", "april", "may", "june",
   "july", "august", "september", "october", "november", "december"]

/-- The two month-name grammars a text date field can use. -/
inductive MonthNameForm where
  | abbreviated
  | full
deriving DecidableEq, Repr

def monthNamesOf : MonthNameForm → List String
  | .abbreviated => abbrevMonthNames
  | .full => fullMonthNames

/-- Match one month name from `names` at the head of `cs` (already
lower-cased); returns the month number and the rest. -/
def matchMonthAux (names : List String) (idx : Nat) (cs : List Char) :
    Option (Nat × List Char) :=
  match names with
  | [] => none
  | n :: rest =>
      if n.data.isPrefixOf cs then some (idx, cs.drop n.data.length)
      else matchMonthAux rest (idx + 1) cs

def matchMonth (form : MonthNameForm) (cs : List Char) : Option (Nat × List Char) :=
  matchMonthAux (monthNamesOf form) 1 cs

/-- First-alternative-wins composition, the shape of regex alternation
with backtracking. -/
def orElseO (a b : Option PyDateTime) : Option PyDateTime :=
  match a with
  | some r => some r
  | none => b

/-- The `%d` directive: regex `(3[01]|[12]\d|0[1-9]|[1-9])`, alternatives
tried in that order with backtracking into the continuation `k`. -/
def matchDayOfMonth (cs : List Char) (k : Nat → List Char → Option PyDateTime) :
    Option PyDateTime :=
  match cs with
  | c1 :: c2 :: rest =>
      orElseO
        (if (c1 == '3' && (c2 == '0' || c2 == '1'))
            || ((c1 == '1' || c1 == '2') && isAsciiDigit c2)
            || (c1 == '0' && ('1' ≤ c2 && c2 ≤ '9')) then
          k (digitVal c1 * 10 + digitVal c2) rest
        else none)
        (if '1' ≤ c1 && c1 ≤ '9' then k (digitVal c1) (c2 :: rest) else none)
  | [c1] => if '1' ≤ c1 && c1 ≤ '9' then k (digitVal c1) [] else none
  | [] => none

/-- The `%Y` directive: exactly four digits. -/
def matchYear4 (cs : List Char) (k : Nat → List Char → Option PyDateTime) :
    Option PyDateTime :=
  match cs with
  | a :: b :: c :: d :: rest =>
      if isAsciiDigit a && isAsciiDigit b && isAsciiDigit c && isAsciiDigit d then
        k (digitsToNat [a, b, c, d]) rest
      else none
  | _ => none

/-- `strptime(s, "<month> %d, %Y")` on a whitespace-normalized,
lower-cased string: month name, space, day, ", ", 4-digit year, end of
input.  The constructed datetime is already reduced to midnight UTC, as
`parse_full_date_to_dt` does via `replace`. -/
def strptimeFullDate (form : MonthNameForm) (cs : List Char) : Option PyDateTime :=
  match matchMonth form cs with
  | none => none
  | some (mo, rest) =>
      match rest with
      | ' ' :: rest2 =>
          matchDayOfMonth rest2 (fun d rest3 =>
            match rest3 with
            | ',' :: ' ' :: rest4 =>
                matchYear4 rest4 (fun y rest5 =>
                  if rest5.isEmpty then mkDateTime y mo d 0 0 0 0 (some 0) else none)
            | _ => none)
      | _ => none

/-- `strptime(s, "<month> %Y")` similarly; the day defaults to 1 and
`parse_month_year_to_dt` additionally forces midnight on day 1. -/
def strptimeMonthYear (form : MonthNameForm) (cs : List Char) : Option PyDateTime :=
  match matchMonth form cs with
  | none => none
  | some (mo, rest) =>
      match rest with
      | ' ' :: rest2 =>
          matchYear4 rest2 (fun y rest3 =>
            if rest3.isEmpty then mkDateTime y mo 1 0 0 0 0 (some 0) else none)
      | _ => none

/-- First `some` in a list of attempts (the `for fmt in fmts: try ...`
loop shape). -/
def firstSome : List (Option α) → Option α
  | [] => none
  | some a :: _ => some a
  | none :: rest => firstSome rest

/-- The `fmts` list of `parse_full_date_to_dt`:
`["%b %d, %Y", "%B %d, %Y"]` — abbreviated month names first. -/
def parse_full_date_fmts : List MonthNameForm :=
  [.abbreviated, .full]

/-- The `fmts` list of `parse_month_year_to_dt`:
`["%B %Y", "%b %Y"]` — full month names first. -/
def parse_month_year_fmts : List MonthNameForm :=
  [.full, .abbreviated]

/-- `parse_full_date_to_dt`: normalize whitespace, then try the format
list in order; returns midnight UTC of the parsed date. -/
def parse_full_date_to_dt (date_text : String) : Option PyDateTime :=
  let s := lowerList (normalizeWsList date_text.data)
  firstSome (parse_full_date_fmts.map (fun f => strptimeFullDate f s))

/-- `parse_month_year_to_dt`: normalize whitespace, then try the format
list in order; returns the 1st of the month at midnight UTC. -/
def parse_month_year_to_dt (month_year_text : String) : Option PyDateTime :=
  let s := lowerList (normalizeWsList month_year_text.data)
  firstSome (parse_month_year_fmts.map (fun f => strptimeMonthYear f s))

/-! ### `datetime.fromisoformat` (Python 3.10 semantics)

The source's `datetime | None` annotations pin Python ≥ 3.10; the 3.10
grammar is modelled (3.11+ additionally accepts separator-less basic
formats, which none of the docstring examples or claims use).  Elided
stdlib corners, none of which the claims exercise: `int()`'s tolerance
of underscores/signs/padding inside the digit fields (modelled as
strict digits), and offsets of the 15-character `±HH:MM:SS.ffffff`
form (offsets `±HH:MM` and `±HH:MM:SS` are modelled). -/

/-- `_parse_isoformat_date`: exactly `YYYY-MM-DD` with strict digits;
range validation happens later in the `datetime` constructor. -/
def parseIsoDateStrict (cs : List Char) : Option (Nat × Nat × Nat) :=
  match cs with
  | [y1, y2, y3, y4, s1, m1, m2, s2, d1, d2] =>
      if isAsciiDigit y1 && isAsciiDigit y2 && isAsciiDigit y3 && isAsciiDigit y4
          && s1 == '-' && isAsciiDigit m1 && isAsciiDigit m2
          && s2 == '-' && isAsciiDigit d1 && isAsciiDigit d2 then
        some (digitsToNat [y1, y2, y3, y4], digitsToNat [m1, m2], digitsToNat [d1, d2])
      else none
  | _ => none

def parse2dig (cs : List Char) : Option (Nat × List Char) :=
  match cs with
  | a :: b :: rest =>
      if isAsciiDigit a && isAsciiDigit b then
        some (digitVal a * 10 + digitVal b, rest)
      else none
  | _ => none

/-- `_parse_hh_mm_ss_ff`: `HH[:MM[:SS[.fff|.ffffff]]]`, each component
exactly two digits; the fraction has exactly 3 or 6 digits.  Returns
`(hour, minute, second, microsecond)`. -/
def parseHMSF (cs : List Char) : Option (Nat × Nat × Nat × Nat) :=
  match parse2dig cs with
  | none => none
  | some (h, r1) =>
      match r1 with
      | [] => some (h, 0, 0, 0)
      | ':' :: r2 =>
          match parse2dig r2 with
          | none => none
          | some (mi, r3) =>
              match r3 with
              | [] => some (h, mi, 0, 0)
              | ':' :: r4 =>
                  match parse2dig r4 with
                  | none => none
                  | some (sec, r5) =>
                      match r5 with
                      | [] => some (h, mi, sec, 0)
                      | '.' :: r6 =>
                          if r6.length == 3 && r6.all isAsciiDigit then
                            some (h, mi, sec, digitsToNat r6 * 1000)
                          else if r6.length == 6 && r6.all isAsciiDigit then
                            some (h, mi, sec, digitsToNat r6)
                          else none
                      | _ => none
              | _ => none
      | _ => none

/-- Split the time string at the first `-`, else the first `+` (the
`tstr.find('-') + 1 or tstr.find('+') + 1` dance): returns the time
part, and the sign (1 or -1) and text of the offset part when present. -/
def splitTzPart (cs : List Char) : List Char × Option (Int × List Char) :=
  match cs.indexOf? '-' with
  | some i => (cs.take i, some (-1, cs.drop (i + 1)))
  | none =>
      match cs.indexOf? '+' with
      | some i => (cs.take i, some (1, cs.drop (i + 1)))
      | none => (cs, none)

/-- Parse the offset text (`HH:MM` or `HH:MM:SS`) and apply the
`timezone()` constructor's strict-inside-one-day check. -/
def parseTzOffset (sign : Int) (tz : List Char) : Option Int :=
  if tz.length == 5 || tz.length == 8 then
    match parseHMSF tz with
    | none => none
    | some (th, tm, ts, _) =>
        if -86400 < sign * ((th * 3600 + tm * 60 + ts : Nat) : Int) ∧
            sign * ((th * 3600 + tm * 60 + ts : Nat) : Int) < 86400 then
          some (sign * ((th * 3600 + tm * 60 + ts : Nat) : Int))
        else none
  else none

/-- `datetime.fromisoformat` (3.10): date from the first 10 characters,
time from character 11 on; the separator character at index 10 is never
inspected.  Any raised exception is modelled as `none`. -/
def fromisoformat (s : List Char) : Option PyDateTime :=
  if s.length < 10 then none
  else
    match parseIsoDateStrict (s.take 10) with
    | none => none
    | some (y, mo, d) =>
        if (s.drop 11).isEmpty then mkDateTime y mo d 0 0 0 0 none
        else
          match parseHMSF (splitTzPart (s.drop 11)).1 with
          | none => none
          | some (h, mi, sec, us) =>
              match (splitTzPart (s.drop 11)).2 with
              | none => mkDateTime y mo d h mi sec us none
              | some (sign, tz) =>
                  match parseTzOffset sign tz with
                  | none => none
                  | some off => mkDateTime y mo d h mi sec us (some off)

/-- The `%m` directive: regex `(1[0-2]|0[1-9]|[1-9])`, alternatives in
that order with backtracking into the continuation. -/
def matchMonthNum (cs : List Char) (k : Nat → List Char → Option PyDateTime) :
    Option PyDateTime :=
  match cs with
  | c1 :: c2 :: rest =>
      orElseO
        (if (c1 == '1' && (c2 == '0' || c2 == '1' || c2 == '2'))
            || (c1 == '0' && ('1' ≤ c2 && c2 ≤ '9')) then
          k (digitVal c1 * 10 + digitVal c2) rest
        else none)
        (if '1' ≤ c1 && c1 ≤ '9' then k (digitVal c1) (c2 :: rest) else none)
  | [c1] => if '1' ≤ c1 && c1 ≤ '9' then k (digitVal c1) [] else none
  | [] => none

/-- `datetime.strptime(s, "%Y-%m-%d").replace(tzinfo=timezone.utc)`:
four-digit year, dash, month, dash, day, end of input; midnight UTC. -/
def strptimeYmd (cs : List Char) : Option PyDateTime :=
  matchYear4 cs (fun y r =>
    match r with
    | '-' :: r2 =>
        matchMonthNum r2 (fun mo r3 =>
          match r3 with
          | '-' :: r4 =>
              matchDayOfMonth r4 (fun d r5 =>
                if r5.isEmpty then mkDateTime y mo d 0 0 0 0 (some 0) else none)
          | _ => none)
    | _ => none)

/-- `s.replace("Z", "+00:00")` (case-sensitive, every occurrence). -/
def pyReplaceZ (cs : List Char) : List Char :=
  (cs.map (fun c => if c == 'Z' then "+00:00".data else [c])).flatten

/-- The preprocessing of `iso_to_dt`: `iso_str.strip()` then
`s.replace("Z", "+00:00")`. -/
def isoPrep (s : String) : List Char :=
  pyReplaceZ (pyStripList s.data)

/-- The naive-means-UTC adjustment between `fromisoformat` and
`astimezone`: `if d.tzinfo is None: d = d.replace(tzinfo=timezone.utc)`. -/
def assumeUTC (d : PyDateTime) : PyDateTime :=
  if d.offSec.isNone then { d with offSec := some 0 } else d

/-- `iso_to_dt`: strip, substitute `Z`, try `fromisoformat` followed by
normalization to UTC; on any failure (including an astimezone overflow)
fall back to parsing the first 10 characters as `%Y-%m-%d`. -/
def iso_to_dt (iso_str : String) : Option PyDateTime :=
  let s := isoPrep iso_str
  match fromisoformat s with
  | some d0 =>
      match astimezoneUTC (assumeUTC d0) with
      | some r => some r
      | none => strptimeYmd (s.take 10)
  | none => strptimeYmd (s.take 10)

/-! ### A small backtracking regex engine

Python `re` semantics for the fragment the source uses: character
classes, sequencing, prioritized alternation, greedy and lazy `*`,
capture groups and `\b`.  The matcher is continuation-passing with
explicit backtracking, so alternatives are tried in Python's priority
order (greedy = longest first, lazy = shortest first, left alternative
first); `search` returns the leftmost match.  `fuel` bounds the
recursion; it is chosen far above the depth any of the concrete
patterns can reach on the inputs considered. -/

inductive RE where
  | eps : RE
  | cls (p : Char → Bool) : RE
  | seq (a b : RE) : RE
  | alt (a b : RE) : RE
  | star (r : RE) (lazyQ : Bool) : RE
  | group (n : Nat) (r : RE) : RE
  | wb : RE

/-- Captured groups of a match: group index paired with captured text
(latest write first, as backtracking rewinds naturally). -/
abbrev Caps := List (Nat × List Char)

def capGet (caps : Caps) (n : Nat) : Option (List Char) :=
  (caps.find? (fun p => p.1 == n)).map (·.2)

/-- The backtracking matcher.  `prev` is the character just before the
current position (for `\b`); the continuation `k` receives the updated
context.  A star only iterates when its body consumed input (Python
likewise never loops on an empty repetition). -/
def mrun (fuel : Nat) (r : RE) (prev : Option Char) (s : List Char) (caps : Caps)
    (k : Option Char → List Char → Caps → Option β) : Option β :=
  match fuel with
  | 0 => none
  | fuel + 1 =>
      match r with
      | .eps => k prev s caps
      | .cls p =>
          match s with
          | [] => none
          | c :: rest => if p c then k (some c) rest caps else none
      | .seq a b =>
          mrun fuel a prev s caps (fun p2 s2 c2 => mrun fuel b p2 s2 c2 k)
      | .alt a b =>
          match mrun fuel a prev s caps k with
          | some res => some res
          | none => mrun fuel b prev s caps k
      | .star r lazyQ =>
          if lazyQ then
            match k prev s caps with
            | some res => some res
            | none =>
                mrun fuel r prev s caps (fun p2 s2 c2 =>
                  if s2.length < s.length then mrun fuel (.star r lazyQ) p2 s2 c2 k
                  else none)
          else
            match mrun fuel r prev s caps (fun p2 s2 c2 =>
                if s2.length < s.length then mrun fuel (.star r lazyQ) p2 s2 c2 k
                else none) with
            | some res => some res
            | none => k prev s caps
      | .group n r =>
          mrun fuel r prev s caps (fun p2 s2 c2 =>
            k p2 s2 ((n, s.take (s.length - s2.length)) :: c2))
      | .wb =>
          let lw := match prev with | none => false | some c => isWordChar c
          let rw := match s with | [] => false | c :: _ => isWordChar c
          if lw != rw then k prev s caps else none

def reSize : RE → Nat
  | .eps => 1
  | .cls _ => 1
  | .seq a b => reSize a + reSize b + 1
  | .alt a b => reSize a + reSize b + 1
  | .star r _ => reSize r + 1
  | .group _ r => reSize r + 1
  | .wb => 1

def reFuel (r : RE) (s : List Char) : Nat :=
  (reSize r + 3) * (s.length + 3) + 1000

/-- Try to match `r` at the current position; returns the number of
characters consumed and the captures. -/
def matchAtPos (r : RE) (prev : Option Char) (s : List Char) : Option (Nat × Caps) :=
  mrun (reFuel r s) r prev s [] (fun _ s2 c2 => some (s.length - s2.length, c2))

/-- `re.search` from offset `pos`: first position (leftmost) with a
match; returns `(start, end, captures)` in absolute offsets. -/
def searchAux (r : RE) (prev : Option Char) (s : List Char) (pos : Nat) :
    Option (Nat × Nat × Caps) :=
  match matchAtPos r prev s with
  | some (consumed, caps) => some (pos, pos + consumed, caps)
  | none =>
      match s with
      | [] => none
      | c :: rest => searchAux r (some c) rest (pos + 1)

def reSearch (r : RE) (s : List Char) : Option (Nat × Nat × Caps) :=
  searchAux r none s 0

/-- `re.finditer`: non-overlapping leftmost matches; after a match the
scan resumes at its end (one past it for an empty match — unreachable
for the patterns used, which cannot match the empty string). -/
def finditerAux (r : RE) (fuel : Nat) (prev : Option Char) (s : List Char) (pos : Nat) :
    List (Nat × Nat × Caps) :=
  match fuel with
  | 0 => []
  | fuel + 1 =>
      match searchAux r prev s pos with
      | none => []
      | some (a, b, caps) =>
          let k := b - pos
          if k == 0 then
            match s.drop (a - pos) with
            | [] => [(a, b, caps)]
            | c :: rest => (a, b, caps) :: finditerAux r fuel (some c) rest (a + 1)
          else
            (a, b, caps) ::
              finditerAux r fuel ((s.take k).getLast?) (s.drop k) b

def finditer (r : RE) (s : List Char) : List (Nat × Nat × Caps) :=
  finditerAux r (s.length + 1) none s 0

/-- `re.sub(r, repl, s)` with a constant replacement.  (For the used
patterns a match is never empty; an empty match ends the scan here.) -/
def reSubAux (r : RE) (repl : List Char) (fuel : Nat) (prev : Option Char)
    (s : List Char) : List Char :=
  match fuel with
  | 0 => s
  | fuel + 1 =>
      match searchAux r prev s 0 with
      | none => s
      | some (a, b, _) =>
          if b ≤ a then s
          else
            s.take a ++ repl ++
              reSubAux r repl fuel ((s.take b).getLast?) (s.drop b)

def reSubAll (r : RE) (repl : List Char) (s : List Char) : List Char :=
  reSubAux r repl (s.length + 1) none s

/-! ### The concrete patterns of the source -/

/-- Case-sensitive literal. -/
def lit (s : String) : RE :=
  s.data.foldr (fun c acc => RE.seq (RE.cls (fun d => d == c)) acc) RE.eps

/-- Case-insensitive literal (`re.IGNORECASE`, ASCII). -/
def litCI (s : String) : RE :=
  s.data.foldr (fun c acc =>
    RE.seq (RE.cls (fun d => asciiLower d == asciiLower c)) acc) RE.eps

def plusRE (r : RE) : RE := .seq r (.star r false)

def clsNotGt : RE := .cls (fun c => c != '>')
def clsNotQuote : RE := .cls (fun c => c != '"')
def clsAny : RE := .cls (fun _ => true)
def clsWs : RE := .cls isPyWs
def clsDigit : RE := .cls isAsciiDigit

/-- `\d{1,2}` — two digits preferred, backtracking to one. -/
def digit12 : RE := .seq clsDigit (.alt clsDigit .eps)

def digit4 : RE := .seq clsDigit (.seq clsDigit (.seq clsDigit clsDigit))

/-- Listing heading/anchor pattern (IGNORECASE | DOTALL):
`<h2[^>]*>\s*<a[^>]*href="(https://easconsultinggroup\.com/[^"]+)"[^>]*>(.*?)</a>\s*</h2>` -/
def h2LinkRE : RE :=
  .seq (litCI "<h2") (.seq (.star clsNotGt false) (.seq (lit ">")
    (.seq (.star clsWs false) (.seq (litCI "<a") (.seq (.star clsNotGt false)
      (.seq (litCI "href=\"")
        (.seq (.group 1 (.seq (litCI "https://easconsultinggroup.com/") (plusRE clsNotQuote)))
          (.seq (lit "\"") (.seq (.star clsNotGt false) (.seq (lit ">")
            (.seq (.group 2 (.star clsAny true))
              (.seq (litCI "</a>") (.seq (.star clsWs false) (litCI "</h2>"))))))))))))))

/-- One alternative of the listing date pattern: first-letter class,
tail-letter piece, then `\s+\d{1,2},\s+\d{4}`. -/
def fullDateAlt (tailPiece : RE) : RE :=
  .seq (.cls isAsciiUpper) (.seq tailPiece
    (.seq (plusRE clsWs) (.seq digit12 (.seq (lit ",")
      (.seq (plusRE clsWs) digit4)))))

/-- Listing date pattern (no flags, case-sensitive):
`\b([A-Z][a-z]{2}\s+\d{1,2},\s+\d{4}|[A-Z][a-z]+\s+\d{1,2},\s+\d{4})\b` -/
def fullDateRE : RE :=
  .seq .wb (.seq
    (.group 1 (.alt
      (fullDateAlt (.seq (.cls isAsciiLower) (.cls isAsciiLower)))
      (fullDateAlt (plusRE (.cls isAsciiLower)))))
    .wb)

/-- `<meta[^>]+property="article:published_time"[^>]+content="([^"]+)"` (IGNORECASE). -/
def metaPropRE : RE :=
  .seq (litCI "<meta") (.seq (plusRE clsNotGt)
    (.seq (litCI "property=\"article:published_time\"") (.seq (plusRE clsNotGt)
      (.seq (litCI "content=\"") (.seq (.group 1 (plusRE clsNotQuote)) (lit "\""))))))

/-- Same with `name=` for the property key (IGNORECASE). -/
def metaNameRE : RE :=
  .seq (litCI "<meta") (.seq (plusRE clsNotGt)
    (.seq (litCI "name=\"article:published_time\"") (.seq (plusRE clsNotGt)
      (.seq (litCI "content=\"") (.seq (.group 1 (plusRE clsNotQuote)) (lit "\""))))))

/-- `<script[^>]*type="application/ld\+json"[^>]*>(.*?)</script>` (DOTALL | IGNORECASE). -/
def scriptLdJsonRE : RE :=
  .seq (litCI "<script") (.seq (.star clsNotGt false)
    (.seq (litCI "type=\"application/ld+json\"") (.seq (.star clsNotGt false)
      (.seq (lit ">") (.seq (.group 1 (.star clsAny true)) (litCI "</script>"))))))

/-- `<time[^>]*datetime="([^"]+)"` (IGNORECASE). -/
def timeTagRE : RE :=
  .seq (litCI "<time") (.seq (.star clsNotGt false)
    (.seq (litCI "datetime=\"") (.seq (.group 1 (plusRE clsNotQuote)) (lit "\""))))

/-- `\bDate:\s*([A-Z][a-z]+)\s+(\d{4})\b` (IGNORECASE): with IGNORECASE
both letter classes match any ASCII letter. -/
def dateLabelRE : RE :=
  .seq .wb (.seq (litCI "Date:") (.seq (.star clsWs false)
    (.seq (.group 1 (.seq (.cls isAsciiAlpha) (plusRE (.cls isAsciiAlpha))))
      (.seq (plusRE clsWs) (.seq (.group 2 digit4) .wb)))))

/-- `<[^>]+>` — markup tags, for stripping. -/
def tagRE : RE := .seq (lit "<") (.seq (plusRE clsNotGt) (lit ">"))

/-- `\s+` — whitespace runs, for collapsing. -/
def wsRunRE : RE := plusRE clsWs

/-! ### `html.escape` / `html.unescape`

`html.escape` is modelled exactly.  `html.unescape` is modelled for
numeric references and the common named entities; the full HTML5 named
table and the legacy semicolon-less forms are elided — no claim
depends on them, and titles in all concrete inputs below stay within
this subset. -/

def htmlEscapeChar (c : Char) : List Char :=
  if c == '&' then "&amp;".data
  else if c == '<' then "&lt;".data
  else if c == '>' then "&gt;".data
  else if c == '"' then "&quot;".data
  else if c == '\'' then "&#x27;".data
  else [c]

def htmlEscape (s : String) : String :=
  ⟨(s.data.map htmlEscapeChar).flatten⟩

def namedEntities : List (String × Char) :=
  [("amp", '&'), ("lt", '<'), ("gt", '>'), ("quot", '"'), ("apos", '\''),
   ("nbsp", '\xA0'), ("ndash", '–'), ("mdash", '—'), ("rsquo", '’')]

def hexDigitVal (c : Char) : Option Nat :=
  if isAsciiDigit c then some (digitVal c)
  else if 'a' ≤ c && c ≤ 'f' then some (c.toNat - 87)
  else if 'A' ≤ c && c ≤ 'F' then some (c.toNat - 55)
  else none

def isValidScalar (n : Nat) : Bool :=
  n < 0xD800 || (0xE000 ≤ n && n < 0x110000)

/-- Resolve one `&...;` body (text between `&` and `;`). -/
def resolveEntity (body : List Char) : Option Char :=
  match body with
  | '#' :: rest =>
      match rest with
      | 'x' :: hs | 'X' :: hs =>
          if hs ≠ [] ∧ hs.all (fun c => (hexDigitVal c).isSome) then
            let n := hs.foldl (fun acc c => acc * 16 + (hexDigitVal c).getD 0) 0
            if isValidScalar n then some (Char.ofNat n) else none
          else none
      | _ =>
          if rest ≠ [] ∧ rest.all isAsciiDigit then
            let n := digitsToNat rest
            if isValidScalar n then some (Char.ofNat n) else none
          else none
  | _ => (namedEntities.find? (fun p => p.1.data == body)).map (·.2)

def htmlUnescapeAux : Nat → List Char → List Char
  | 0, cs => cs
  | fuel + 1, cs =>
      match cs with
      | [] => []
      | '&' :: rest =>
          match rest.indexOf? ';' with
          | some i =>
              if i ≤ 30 then
                match resolveEntity (rest.take i) with
                | some c => c :: htmlUnescapeAux fuel (rest.drop (i + 1))
                | none => '&' :: htmlUnescapeAux fuel rest
              else '&' :: htmlUnescapeAux fuel rest
          | none => '&' :: htmlUnescapeAux fuel rest
      | c :: rest => c :: htmlUnescapeAux fuel rest

def htmlUnescapeList (cs : List Char) : List Char :=
  htmlUnescapeAux (cs.length + 1) cs

/-! ### `json.loads`

A strict-mode JSON reader.  `jnum` keeps the literal text: Python
re-renders numbers (`str()` of the decoded float/int), but every
rendering of a JSON number — like every list/dict `repr`, here elided
to a marker — is rejected by `iso_to_dt`, the only consumer of these
texts, so the approximation is behaviourally invisible. -/

inductive JVal where
  | jnull : JVal
  | jbool (b : Bool) : JVal
  | jnum (raw : List Char) : JVal
  | jstr (s : List Char) : JVal
  | jarr (xs : List JVal) : JVal
  | jobj (fields : List (List Char × JVal)) : JVal

def jsonWsChar (c : Char) : Bool :=
  c == ' ' || c == '\t' || c == '\n' || c == '\r'

def escCharJson (e : Char) : Option Char :=
  if e == '"' then some '"'
  else if e == '\\' then some '\\'
  else if e == '/' then some '/'
  else if e == 'b' then some '\x08'
  else if e == 'f' then some '\x0c'
  else if e == 'n' then some '\n'
  else if e == 'r' then some '\r'
  else if e == 't' then some '\t'
  else none

def hex4 (a b c d : Char) : Option Nat :=
  match hexDigitVal a, hexDigitVal b, hexDigitVal c, hexDigitVal d with
  | some x, some y, some z, some w => some (((x * 16 + y) * 16 + z) * 16 + w)
  | _, _, _, _ => none

/-- JSON string body after the opening quote; surrogate pairs are
recombined (a lone surrogate, unrepresentable in `Char`, becomes
U+FFFD — no claim input contains one). -/
def parseJStrBody : Nat → List Char → Option (List Char × List Char)
  | 0, _ => none
  | fuel + 1, cs =>
      match cs with
      | [] => none
      | '"' :: rest => some ([], rest)
      | '\\' :: 'u' :: a :: b :: c :: d :: rest2 =>
          match hex4 a b c d with
          | none => none
          | some n =>
              if 0xD800 ≤ n ∧ n ≤ 0xDBFF then
                match rest2 with
                | '\\' :: 'u' :: a2 :: b2 :: c2 :: d2 :: rest3 =>
                    match hex4 a2 b2 c2 d2 with
                    | some n2 =>
                        if 0xDC00 ≤ n2 ∧ n2 ≤ 0xDFFF then
                          (parseJStrBody fuel rest3).map (fun pr =>
                            (Char.ofNat (0x10000 + (n - 0xD800) * 1024 + (n2 - 0xDC00)) :: pr.1, pr.2))
                        else
                          (parseJStrBody fuel rest2).map (fun pr => ('�' :: pr.1, pr.2))
                    | none => (parseJStrBody fuel rest2).map (fun pr => ('�' :: pr.1, pr.2))
                | _ => (parseJStrBody fuel rest2).map (fun pr => ('�' :: pr.1, pr.2))
              else if 0xDC00 ≤ n ∧ n ≤ 0xDFFF then
                (parseJStrBody fuel rest2).map (fun pr => ('�' :: pr.1, pr.2))
              else
                (parseJStrBody fuel rest2).map (fun pr => (Char.ofNat n :: pr.1, pr.2))
      | '\\' :: e :: rest2 =>
          match escCharJson e with
          | none => none
          | some c => (parseJStrBody fuel rest2).map (fun pr => (c :: pr.1, pr.2))
      | c :: rest =>
          if c.toNat < 0x20 then none
          else (parseJStrBody fuel rest).map (fun pr => (c :: pr.1, pr.2))

/-- JSON number literal (strict grammar); returns the consumed text. -/
def parseJNum (cs : List Char) : Option (List Char × List Char) :=
  let signed : List Char × List Char :=
    match cs with
    | '-' :: r => (['-'], r)
    | _ => ([], cs)
  let neg := signed.1
  let cs1 := signed.2
  let intPart : Option (List Char × List Char) :=
    match cs1 with
    | '0' :: r => some (['0'], r)
    | c :: _ =>
        if '1' ≤ c && c ≤ '9' then
          some (cs1.takeWhile isAsciiDigit, cs1.dropWhile isAsciiDigit)
        else none
    | [] => none
  match intPart with
  | none => none
  | some (ip, r1) =>
      let fracPart : Option (List Char × List Char) :=
        match r1 with
        | '.' :: r2 =>
            let ds := r2.takeWhile isAsciiDigit
            if ds.isEmpty then none
            else some ('.' :: ds, r2.dropWhile isAsciiDigit)
        | _ => some ([], r1)
      match fracPart with
      | none => none
      | some (fp, r3) =>
          let expPart : Option (List Char × List Char) :=
            match r3 with
            | e :: r4 =>
                if e == 'e' || e == 'E' then
                  let sgn : List Char × List Char :=
                    match r4 with
                    | '+' :: r5 => (['+'], r5)
                    | '-' :: r5 => (['-'], r5)
                    | _ => ([], r4)
                  let ds := sgn.2.takeWhile isAsciiDigit
                  if ds.isEmpty then none
                  else some (e :: (sgn.1 ++ ds), sgn.2.dropWhile isAsciiDigit)
                else some ([], r3)
            | [] => some ([], r3)
          match expPart with
          | none => none
          | some (ep, r6) => some (neg ++ ip ++ fp ++ ep, r6)

mutual

def parseJVal : Nat → List Char → Option (JVal × List Char)
  | 0, _ => none
  | fuel + 1, cs =>
      match cs with
      | '"' :: rest =>
          (parseJStrBody (rest.length + 1) rest).map (fun pr => (.jstr pr.1, pr.2))
      | '[' :: rest =>
          let r1 := rest.dropWhile jsonWsChar
          match r1 with
          | ']' :: r2 => some (.jarr [], r2)
          | _ => parseJArrItems fuel r1 []
      | '\x7b' :: rest =>
          let r1 := rest.dropWhile jsonWsChar
          match r1 with
          | '\x7d' :: r2 => some (.jobj [], r2)
          | _ => parseJObjItems fuel r1 []
      | _ =>
          if "true".data.isPrefixOf cs then some (.jbool true, cs.drop 4)
          else if "false".data.isPrefixOf cs then some (.jbool false, cs.drop 5)
          else if "null".data.isPrefixOf cs then some (.jnull, cs.drop 4)
          else if "NaN".data.isPrefixOf cs then some (.jnum "NaN".data, cs.drop 3)
          else if "Infinity".data.isPrefixOf cs then some (.jnum "Infinity".data, cs.drop 8)
          else if "-Infinity".data.isPrefixOf cs then some (.jnum "-Infinity".data, cs.drop 9)
          else (parseJNum cs).map (fun pr => (.jnum pr.1, pr.2))

def parseJArrItems : Nat → List Char → List JVal → Option (JVal × List Char)
  | 0, _, _ => none
  | fuel + 1, cs, acc =>
      match parseJVal fuel cs with
      | none => none
      | some (v, r) =>
          let r1 := r.dropWhile jsonWsChar
          match r1 with
          | ',' :: r2 => parseJArrItems fuel (r2.dropWhile jsonWsChar) (v :: acc)
          | ']' :: r2 => some (.jarr (v :: acc).reverse, r2)
          | _ => none

def parseJObjItems : Nat → List Char → List (List Char × JVal) →
    Option (JVal × List Char)
  | 0, _, _ => none
  | fuel + 1, cs, acc =>
      match cs with
      | '"' :: rest =>
          match parseJStrBody (rest.length + 1) rest with
          | none => none
          | some (key, r) =>
              let r1 := r.dropWhile jsonWsChar
              match r1 with
              | ':' :: r2 =>
                  match parseJVal fuel (r2.dropWhile jsonWsChar) with
                  | none => none
                  | some (v, r3) =>
                      let r4 := r3.dropWhile jsonWsChar
                      match r4 with
                      | ',' :: r5 => parseJObjItems fuel (r5.dropWhile jsonWsChar) ((key, v) :: acc)
                      | '\x7d' :: r5 => some (.jobj ((key, v) :: acc).reverse, r5)
                      | _ => none
              | _ => none
      | _ => none

end

/-- `json.loads`: optional surrounding whitespace, one value, nothing
after it. -/
def jsonLoads (cs : List Char) : Option JVal :=
  match parseJVal (cs.length + 1) (cs.dropWhile jsonWsChar) with
  | some (v, rest) => if (rest.dropWhile jsonWsChar).isEmpty then some v else none
  | none => none

/-- Dictionary lookup: a duplicated key keeps its last value, as in a
Python dict built by the decoder. -/
def jobjGet (fields : List (List Char × JVal)) (key : List Char) : Option JVal :=
  (fields.reverse.find? (fun p => p.1 == key)).map (·.2)

/-- Python `str()` of a decoded JSON value (see the note on `JVal` for
the approximation on non-string values). -/
def pyStr : JVal → List Char
  | .jstr s => s
  | .jnum raw => raw
  | .jnull => "None".data
  | .jbool true => "True".data
  | .jbool false => "False".data
  | .jarr _ => "[elided]".data
  | .jobj _ => "\x7belided\x7d".data

/-! ### The listing extractor -/

def BLOG_URL : String := "https://easconsultinggroup.com/eas-blog/"

def MAX_ITEMS : Nat := 30

/-- Substring containment, Python's `needle in hay`. -/
def listContains (needle : List Char) : List Char → Bool
  | [] => needle.isEmpty
  | c :: rest => needle.isPrefixOf (c :: rest) || listContains needle rest

/-- The URL filter of `extract_posts_from_listing`:
`url.endswith("/feed/") or url.endswith("/comments/feed/") or
"/wp-json/" in url or url.rstrip("/") == BLOG_URL.rstrip("/")`. -/
def urlExcluded (url : String) : Bool :=
  "/feed/".data.isSuffixOf url.data
    || "/comments/feed/".data.isSuffixOf url.data
    || listContains "/wp-json/".data url.data
    || rstripSlashList url.data == rstripSlashList BLOG_URL.data

/-- `m.group(1).split("#")[0].strip()`. -/
def urlOfMatch (caps : Caps) : String :=
  ⟨pyStripList (((capGet caps 1).getD []).takeWhile (fun c => c != '#'))⟩

/-- Title cleanup: strip tags, collapse whitespace, unescape, trim. -/
def titleOfMatch (caps : Caps) : String :=
  ⟨pyStripList (htmlUnescapeList
    (reSubAll wsRunRE [' '] (reSubAll tagRE [] ((capGet caps 2).getD []))))⟩

/-- The 1000-character lookahead window after a match, searched for a
listing-level date. -/
def listingDateOfWindow (listing : List Char) (matchEnd : Nat) : Option PyDateTime :=
  match reSearch fullDateRE ((listing.drop matchEnd).take 1000) with
  | some mm => (capGet mm.2.2 1).bind (fun g => parse_full_date_to_dt ⟨g⟩)
  | none => none

/-- The extraction loop over the `finditer` matches, carrying the
`seen` set of `(title, url)` keys already kept. -/
def extractLoop (listing : List Char) :
    List (Nat × Nat × Caps) → List (String × String) →
    List (String × String × Option PyDateTime)
  | [], _ => []
  | m :: ms, seen =>
      let url := urlOfMatch m.2.2
      let title := titleOfMatch m.2.2
      if urlExcluded url then extractLoop listing ms seen
      else
        let pub_dt := listingDateOfWindow listing m.2.1
        if title != "" && !(seen.contains (title, url)) then
          (title, url, pub_dt) :: extractLoop listing ms ((title, url) :: seen)
        else extractLoop listing ms seen

def extract_posts_from_listing (listing_html : String) :
    List (String × String × Option PyDateTime) :=
  extractLoop listing_html.data (finditer h2LinkRE listing_html.data) []

/-! ### The date-resolution cascade on a post page -/

/-- `search(r, s)` followed by `.group(1)`. -/
def searchG1 (r : RE) (cs : List Char) : Option (List Char) :=
  (reSearch r cs).bind (fun m => capGet m.2.2 1)

/-- Tier 1: the two `article:published_time` meta-tag shapes, each
taken only when its content parses. -/
def tierMeta (cs : List Char) : Option PyDateTime :=
  match (searchG1 metaPropRE cs).bind (fun g => iso_to_dt ⟨g⟩) with
  | some dt => some dt
  | none => (searchG1 metaNameRE cs).bind (fun g => iso_to_dt ⟨g⟩)

/-- One JSON-LD block: parse, then scan the object (or array of
objects) for the first `datePublished` whose value parses. -/
def jsonLdDate (block : List Char) : Option PyDateTime :=
  match jsonLoads (pyStripList block) with
  | none => none
  | some v =>
      let objs := match v with | .jarr xs => xs | _ => [v]
      firstSome (objs.map (fun obj =>
        match obj with
        | .jobj fields =>
            match jobjGet fields "datePublished".data with
            | some dv => iso_to_dt ⟨pyStr dv⟩
            | none => none
        | _ => none))

/-- Tier 2 over all `application/ld+json` script blocks. -/
def tierJsonLd (cs : List Char) : Option PyDateTime :=
  firstSome (((finditer scriptLdJsonRE cs).map
    (fun m => (capGet m.2.2 1).getD [])).map jsonLdDate)

/-- Tier 3: `<time datetime="...">`. -/
def tierTime (cs : List Char) : Option PyDateTime :=
  (searchG1 timeTagRE cs).bind (fun g => iso_to_dt ⟨g⟩)

/-- Tier 4: the `Date: <Month> <Year>` text label, fed through
`parse_month_year_to_dt` as `f"{m.group(1)} {m.group(2)}"`. -/
def tierDateLabel (cs : List Char) : Option PyDateTime :=
  (reSearch dateLabelRE cs).bind (fun m =>
    match capGet m.2.2 1, capGet m.2.2 2 with
    | some g1, some g2 => parse_month_year_to_dt ⟨g1 ++ [' '] ++ g2⟩
    | _, _ => none)

/-- `try_extract_pub_dt_from_post`: the four tiers in source order,
first parseable result wins. -/
def try_extract_pub_dt_from_post (post_html : String) : Option PyDateTime :=
  let cs := post_html.data
  match tierMeta cs with
  | some dt => some dt
  | none =>
      match tierJsonLd cs with
      | some dt => some dt
      | none =>
          match tierTime cs with
          | some dt => some dt
          | none => tierDateLabel cs

/-! ### `rfc2822` formatting and its reading -/

def digitChar (n : Nat) : Char :=
  match n with
  | 0 => '0' | 1 => '1' | 2 => '2' | 3 => '3' | 4 => '4'
  | 5 => '5' | 6 => '6' | 7 => '7' | 8 => '8' | 9 => '9'
  | _ => '*'

/-- Two-digit zero-padded field (all formatted fields are ≤ 99). -/
def pad2 (n : Nat) : List Char := [digitChar (n / 10), digitChar (n % 10)]

/-- Decimal digits of `n` (most significant first); `fuel ≥ n`. -/
def natDigitsAux : Nat → Nat → List Char
  | 0, _ => []
  | fuel + 1, n => if n == 0 then [] else natDigitsAux fuel (n / 10) ++ [digitChar (n % 10)]

def natToDecimal (n : Nat) : List Char :=
  if n == 0 then ['0'] else natDigitsAux n n

/-- Sakamoto's day-of-week (0 = Sunday), the value behind `%a`. -/
def dayOfWeek (y m d : Nat) : Nat :=
  let t := [0, 3, 2, 5, 0, 3, 5, 1, 4, 6, 2, 4]
  let y2 := if m < 3 then y - 1 else y
  (y2 + y2 / 4 - y2 / 100 + y2 / 400 + t.getD (m - 1) 0 + d) % 7

def weekdayAbbrev (w : Nat) : List Char :=
  (["Sun", "Mon", "Tue", "Wed", "Thu", "Fri", "Sat"].getD w "Sun").data

def monthAbbrev : Nat → List Char
  | 1 => "Jan".data | 2 => "Feb".data | 3 => "Mar".data | 4 => "Apr".data
  | 5 => "May".data | 6 => "Jun".data | 7 => "Jul".data | 8 => "Aug".data
  | 9 => "Sep".data | 10 => "Oct".data | 11 => "Nov".data | 12 => "Dec".data
  | _ => []

/-- `rfc2822(dt)`:
`dt.astimezone(timezone.utc).strftime("%a, %d %b %Y %H:%M:%S %z")`.
Every datetime the program formats is already UTC, where `astimezone`
is the identity; the `getD` branch is unreachable there. -/
def rfc2822 (dt : PyDateTime) : String :=
  let u := (astimezoneUTC dt).getD dt
  ⟨weekdayAbbrev (dayOfWeek u.year u.month u.day) ++ ", ".data
    ++ pad2 u.day ++ [' '] ++ monthAbbrev u.month ++ [' ']
    ++ natToDecimal u.year ++ [' ']
    ++ pad2 u.hour ++ [':'] ++ pad2 u.minute ++ [':'] ++ pad2 u.second
    ++ " +0000".data⟩

def monthFromAbbrev (x : List Char) : Option Nat :=
  (List.range 12).findSome? (fun i =>
    if monthAbbrev (i + 1) == x then some (i + 1) else none)

def read2dig (cs : List Char) : Option (Nat × List Char) := parse2dig cs

/-- Read an RFC-2822-style date-time of the shape the formatter emits:
`Www, DD Mon YYYY HH:MM:SS ±HHMM` (the day-of-week name carries no
information and is skipped).  Returns the denoted datetime with the
offset it declares. -/
def rfc2822Read (s : String) : Option PyDateTime :=
  match s.data with
  | a :: b :: c :: ',' :: ' ' :: rest =>
      if isAsciiAlpha a && isAsciiAlpha b && isAsciiAlpha c then
        match read2dig rest with
        | some (d, ' ' :: m1 :: m2 :: m3 :: ' ' :: rest2) =>
            match monthFromAbbrev [m1, m2, m3] with
            | none => none
            | some mo =>
                let ydigits := rest2.takeWhile isAsciiDigit
                if ydigits.isEmpty then none
                else
                  match rest2.dropWhile isAsciiDigit with
                  | ' ' :: rest3 =>
                      match read2dig rest3 with
                      | some (h, ':' :: rest4) =>
                          match read2dig rest4 with
                          | some (mi, ':' :: rest5) =>
                              match read2dig rest5 with
                              | some (sec, ' ' :: sgn :: o1 :: o2 :: o3 :: o4 :: []) =>
                                  if (sgn == '+' || sgn == '-') && isAsciiDigit o1
                                      && isAsciiDigit o2 && isAsciiDigit o3 && isAsciiDigit o4 then
                                    let om : Int :=
                                      ((digitVal o1 * 10 + digitVal o2) * 3600
                                        + (digitVal o3 * 10 + digitVal o4) * 60 : Nat)
                                    let off := if sgn == '-' then -om else om
                                    some ⟨digitsToNat ydigits, mo, d, h, mi, sec, 0, some off⟩
                                  else none
                              | _ => none
                          | _ => none
                      | _ => none
                  | _ => none
        | _ => none
      else none
  | _ => none

/-! ### `main`

The network is an oracle `fetch : String → Option String`; `none`
models a raised exception.  `mainRun` returns the list of `<item>`
strings, or `none` when the listing fetch itself fails (the only
uncaught exception). -/

/-- One `<item>` block, exactly as the f-string builds it (after its
`.strip()`). -/
def xmlItem (title link pubDate : String) : String :=
  "<item>\n      <title>" ++ htmlEscape title
    ++ "</title>\n      <link>" ++ htmlEscape link
    ++ "</link>\n      <guid isPermaLink=\"true\">" ++ htmlEscape link
    ++ "</guid>\n      <pubDate>" ++ pubDate
    ++ "</pubDate>\n    </item>"

/-- The per-post body of the main loop: keep a listing date, otherwise
fetch the post page and run the cascade (a fetch failure is caught),
otherwise fall back to the build timestamp. -/
def resolvePost (fetch : String → Option String) (build_dt : PyDateTime)
    (p : String × String × Option PyDateTime) : PyDateTime :=
  match p.2.2 with
  | some dt => dt
  | none =>
      match fetch p.2.1 with
      | some post_html =>
          match try_extract_pub_dt_from_post post_html with
          | some dt => dt
          | none => build_dt
      | none => build_dt

def mainRun (fetch : String → Option String) (build_dt : PyDateTime) :
    Option (List String) :=
  match fetch BLOG_URL with
  | none => none
  | some listing_html =>
      let posts := (extract_posts_from_listing listing_html).take MAX_ITEMS
      some (posts.map (fun p => xmlItem p.1 p.2.1 (rfc2822 (resolvePost fetch build_dt p))))

/-! ### Derived notions used by the theorem statements -/

/-- The candidate a single `finditer` match denotes, before filtering
and deduplication. -/
def candidateOf (listing : List Char) (m : Nat × Nat × Caps) :
    String × String × Option PyDateTime :=
  (titleOfMatch m.2.2, urlOfMatch m.2.2, listingDateOfWindow listing m.2.1)

def keyOf (c : String × String × Option PyDateTime) : String × String :=
  (c.1, c.2.1)

/-- All matches that survive the URL filter and the non-empty-title
check, in document order, duplicates included. -/
def validCandidates (listing_html : String) :
    List (String × String × Option PyDateTime) :=
  ((finditer h2LinkRE listing_html.data).map (candidateOf listing_html.data)).filter
    (fun c => !(urlExcluded c.2.1) && c.1 != "")

/-- Spec-side deduplication: keep the first occurrence of each key, in
order (`fuel ≥ length` makes the recursion structural). -/
def dedupByKeyAux : Nat → List (String × String × Option PyDateTime) →
    List (String × String × Option PyDateTime)
  | 0, _ => []
  | _ + 1, [] => []
  | fuel + 1, c :: rest =>
      c :: dedupByKeyAux fuel (rest.filter (fun c2 => keyOf c2 != keyOf c))

def dedupByKey (l : List (String × String × Option PyDateTime)) :
    List (String × String × Option PyDateTime) :=
  dedupByKeyAux l.length l

/-- The parsed string carries an explicit offset (a numeric offset, or
a `Z` turned into one). -/
def hasExplicitTZ (s : String) : Bool :=
  match fromisoformat (isoPrep s) with
  | some d => d.offSec.isSome
  | none => false

/-- The whole-string ISO branch of `iso_to_dt` produced no result
(parse failure, or overflow while normalizing to UTC). -/
def isoWholeFails (s : String) : Bool :=
  match fromisoformat (isoPrep s) with
  | some d0 => (astimezoneUTC (assumeUTC d0)).isNone
  | none => true

/-! ## Supporting lemmas -/

theorem mkDateTime_shape {y mo d h mi s us off dt}
    (hmk : mkDateTime y mo d h mi s us off = some dt) :
    dt = ⟨y, mo, d, h, mi, s, us, off⟩ ∧ 1 ≤ y ∧ y ≤ 9999 ∧ 1 ≤ mo ∧ mo ≤ 12 ∧
      1 ≤ d ∧ d ≤ daysInMonth y mo ∧ h ≤ 23 ∧ mi ≤ 59 ∧ s ≤ 59 ∧ us ≤ 999999 := by
  unfold mkDateTime at hmk
  split at hmk
  case isTrue hcond =>
    simp only [Bool.and_eq_true, decide_eq_true_eq] at hcond
    obtain ⟨⟨⟨⟨⟨⟨⟨⟨⟨h1, h2⟩, h3⟩, h4⟩, h5⟩, h6⟩, h7⟩, h8⟩, h9⟩, h10⟩ := hcond
    cases hmk
    exact ⟨rfl, h1, h2, h3, h4, h5, h6, h7, h8, h9, h10⟩
  case isFalse => simp at hmk

theorem matchYear4_some {cs : List Char} {k : Nat → List Char → Option PyDateTime}
    {r : PyDateTime} (h : matchYear4 cs k = some r) :
    ∃ y rest, k y rest = some r := by
  unfold matchYear4 at h
  split at h
  · split at h
    · exact ⟨_, _, h⟩
    · simp at h
  · simp at h

theorem orElseO_some {a b : Option PyDateTime} {r : PyDateTime}
    (h : orElseO a b = some r) : a = some r ∨ (a = none ∧ b = some r) := by
  cases a with
  | some x => left; exact h
  | none => right; exact ⟨rfl, h⟩

theorem matchDayOfMonth_some {cs : List Char} {k : Nat → List Char → Option PyDateTime}
    {r : PyDateTime} (h : matchDayOfMonth cs k = some r) :
    ∃ d rest, k d rest = some r := by
  unfold matchDayOfMonth at h
  split at h
  · rcases orElseO_some h with h2 | ⟨-, h2⟩
    · split at h2
      · exact ⟨_, _, h2⟩
      · simp at h2
    · split at h2
      · exact ⟨_, _, h2⟩
      · simp at h2
  · split at h
    · exact ⟨_, _, h⟩
    · simp at h
  · simp at h

theorem matchMonthNum_some {cs : List Char} {k : Nat → List Char → Option PyDateTime}
    {r : PyDateTime} (h : matchMonthNum cs k = some r) :
    ∃ m rest, k m rest = some r := by
  unfold matchMonthNum at h
  split at h
  · rcases orElseO_some h with h2 | ⟨-, h2⟩
    · split at h2
      · exact ⟨_, _, h2⟩
      · simp at h2
    · split at h2
      · exact ⟨_, _, h2⟩
      · simp at h2
  · split at h
    · exact ⟨_, _, h⟩
    · simp at h
  · simp at h

theorem strptimeMonthYear_shape {form : MonthNameForm} {cs : List Char} {dt : PyDateTime}
    (h : strptimeMonthYear form cs = some dt) :
    dt.day = 1 ∧ dt.hour = 0 ∧ dt.minute = 0 ∧ dt.second = 0 ∧ dt.usec = 0 ∧
      dt.offSec = some 0 := by
  unfold strptimeMonthYear at h
  split at h
  · simp at h
  case h_2 mo rest heq =>
    split at h
    case h_1 rest2 =>
      obtain ⟨y, rest3, hk⟩ := matchYear4_some h
      split at hk
      · obtain ⟨hdt, -⟩ := mkDateTime_shape hk
        subst hdt
        exact ⟨rfl, rfl, rfl, rfl, rfl, rfl⟩
      · simp at hk
    · simp at h

theorem strptimeYmd_shape {cs : List Char} {dt : PyDateTime}
    (h : strptimeYmd cs = some dt) :
    dt.hour = 0 ∧ dt.minute = 0 ∧ dt.second = 0 ∧ dt.usec = 0 ∧
      dt.offSec = some 0 := by
  unfold strptimeYmd at h
  obtain ⟨y, r1, h1⟩ := matchYear4_some h
  split at h1
  case h_1 r2 =>
    obtain ⟨mo, r3, h2⟩ := matchMonthNum_some h1
    split at h2
    case h_1 r4 =>
      obtain ⟨d, r5, h3⟩ := matchDayOfMonth_some h2
      split at h3
      · obtain ⟨hdt, -⟩ := mkDateTime_shape h3
        subst hdt
        exact ⟨rfl, rfl, rfl, rfl, rfl⟩
      · simp at h3
    · simp at h2
  · simp at h1

/-! ## C3 — month-name grammar order in the text date parsers

The spec says both parsers try the abbreviated grammar first.  The
source's `parse_full_date_to_dt` does (`["%b %d, %Y", "%B %d, %Y"]`),
but `parse_month_year_to_dt` tries the full-name grammar first
(`["%B %Y", "%b %Y"]`). -/

/-- C3 (counterexample): the claim says every text-based date field
tries the abbreviated grammar first; the month-year field's format
list is full-first, refuting it. -/
theorem C3_counterexample :
    parse_month_year_fmts ≠ [MonthNameForm.abbreviated, MonthNameForm.full] ∧
    parse_month_year_fmts = [MonthNameForm.full, MonthNameForm.abbreviated] := by
  constructor
  · decide
  · rfl

/-- C3 (amended): both month-name grammars are tried for every
text-based date field; the full-date parser tries abbreviated first
then full, while the month-year parser tries full first then
abbreviated.  Concrete evaluations witness that each grammar is
genuinely accepted by each parser. -/
theorem C3_month_grammar_order :
    parse_full_date_fmts = [MonthNameForm.abbreviated, MonthNameForm.full] ∧
    parse_month_year_fmts = [MonthNameForm.full, MonthNameForm.abbreviated] ∧
    (∀ f : MonthNameForm, f ∈ parse_full_date_fmts ∧ f ∈ parse_month_year_fmts) ∧
    parse_full_date_to_dt "Mar 9, 2023" = some ⟨2023, 3, 9, 0, 0, 0, 0, some 0⟩ ∧
    parse_full_date_to_dt "September 18, 2025" = some ⟨2025, 9, 18, 0, 0, 0, 0, some 0⟩ ∧
    parse_month_year_to_dt "January 2026" = some ⟨2026, 1, 1, 0, 0, 0, 0, some 0⟩ ∧
    parse_month_year_to_dt "Sep 2025" = some ⟨2025, 9, 1, 0, 0, 0, 0, some 0⟩ := by
  refine ⟨rfl, rfl, ?_, by decide, by decide, by decide, by decide⟩
  intro f
  cases f <;> exact ⟨by decide, by decide⟩

/-! ## C2 — month-year labels resolve to the 1st at midnight UTC -/

/-- C2: a post page whose only date signal is `Date: January 2026`
resolves to 2026-01-01T00:00:00Z; every accepted month-year text
resolves to the 1st of the month at midnight UTC; and when the three
higher tiers yield nothing the resolver's result is exactly the
text-label tier's. -/
theorem C2_month_year_midnight :
    try_extract_pub_dt_from_post "<p>Date: January 2026</p>" =
        some ⟨2026, 1, 1, 0, 0, 0, 0, some 0⟩ ∧
    (∀ (s : String) (dt : PyDateTime), parse_month_year_to_dt s = some dt →
      dt.day = 1 ∧ dt.hour = 0 ∧ dt.minute = 0 ∧ dt.second = 0 ∧ dt.usec = 0 ∧
        dt.offSec = some 0) ∧
    (∀ h : String, tierMeta h.data = none → tierJsonLd h.data = none →
      tierTime h.data = none →
      try_extract_pub_dt_from_post h = tierDateLabel h.data) := by
  refine ⟨by decide, ?_, ?_⟩
  · intro s dt h
    unfold parse_month_year_to_dt at h
    unfold parse_month_year_fmts at h
    simp only [List.map, firstSome] at h
    rcases h1 : strptimeMonthYear MonthNameForm.full
        (lowerList (normalizeWsList s.data)) with _ | d1
    · rw [h1] at h
      rcases h2 : strptimeMonthYear MonthNameForm.abbreviated
          (lowerList (normalizeWsList s.data)) with _ | d2
      · rw [h2] at h; simp [firstSome] at h
      · rw [h2] at h
        simp only [firstSome] at h
        cases h
        exact strptimeMonthYear_shape h2
    · rw [h1] at h
      simp only [firstSome] at h
      cases h
      exact strptimeMonthYear_shape h1
  · intro h h1 h2 h3
    simp only [try_extract_pub_dt_from_post]
    rw [h1, h2, h3]

/-- Witness for C2: the first-at-midnight statement at `"Sep 2025"` and
the tier-fallthrough statement at a label-only page. -/
theorem C2_month_year_midnight_witness :
    ((⟨2025, 9, 1, 0, 0, 0, 0, some 0⟩ : PyDateTime).day = 1 ∧
      (⟨2025, 9, 1, 0, 0, 0, 0, some 0⟩ : PyDateTime).hour = 0 ∧
      (⟨2025, 9, 1, 0, 0, 0, 0, some 0⟩ : PyDateTime).minute = 0 ∧
      (⟨2025, 9, 1, 0, 0, 0, 0, some 0⟩ : PyDateTime).second = 0 ∧
      (⟨2025, 9, 1, 0, 0, 0, 0, some 0⟩ : PyDateTime).usec = 0 ∧
      (⟨2025, 9, 1, 0, 0, 0, 0, some 0⟩ : PyDateTime).offSec = some 0) ∧
    try_extract_pub_dt_from_post "<p>Date: January 2026</p>" =
      tierDateLabel "<p>Date: January 2026</p>".data :=
  ⟨C2_month_year_midnight.2.1 "Sep 2025" ⟨2025, 9, 1, 0, 0, 0, 0, some 0⟩ (by decide),
   C2_month_year_midnight.2.2 "<p>Date: January 2026</p>"
     (by decide) (by decide) (by decide)⟩

/-! ## C1 — cascade priority in `try_extract_pub_dt_from_post` -/

theorem firstSome_singleton (x : Option PyDateTime) : firstSome [x] = x := by
  cases x <;> rfl

/-- C1: the resolver is exactly the first-success composition of its
four tiers in source order (so no blending of signals is possible); a
parseable metadata tag always wins; and on a concrete page carrying
both a metadata timestamp and a different `Date:` label, the metadata
value is returned, not the label's. -/
theorem C1_cascade_priority :
    (∀ h : String, try_extract_pub_dt_from_post h =
      firstSome [tierMeta h.data, tierJsonLd h.data, tierTime h.data,
        tierDateLabel h.data]) ∧
    (∀ (h : String) (dt : PyDateTime), tierMeta h.data = some dt →
      try_extract_pub_dt_from_post h = some dt) ∧
    try_extract_pub_dt_from_post
        "<meta property=\"article:published_time\" content=\"2025-09-18T10:22:00Z\"><p>Date: January 2026</p>" =
      some ⟨2025, 9, 18, 10, 22, 0, 0, some 0⟩ ∧
    tierDateLabel
        "<meta property=\"article:published_time\" content=\"2025-09-18T10:22:00Z\"><p>Date: January 2026</p>".data =
      some ⟨2026, 1, 1, 0, 0, 0, 0, some 0⟩ ∧
    (⟨2025, 9, 18, 10, 22, 0, 0, some 0⟩ : PyDateTime) ≠
      ⟨2026, 1, 1, 0, 0, 0, 0, some 0⟩ := by
  refine ⟨?_, ?_, by decide, by decide, by decide⟩
  · intro h
    simp only [try_extract_pub_dt_from_post]
    rcases t1 : tierMeta h.data with _ | d1 <;>
      rcases t2 : tierJsonLd h.data with _ | d2 <;>
        rcases t3 : tierTime h.data with _ | d3 <;>
          rcases t4 : tierDateLabel h.data with _ | d4 <;> rfl
  · intro h dt h1
    simp only [try_extract_pub_dt_from_post]
    rw [h1]

/-- Witness for C1: the parseable-metadata-wins statement at the
concrete page that also carries a conflicting `Date:` label. -/
theorem C1_cascade_priority_witness :
    try_extract_pub_dt_from_post
        "<meta property=\"article:published_time\" content=\"2025-09-18T10:22:00Z\"><p>Date: January 2026</p>" =
      some ⟨2025, 9, 18, 10, 22, 0, 0, some 0⟩ :=
  C1_cascade_priority.2.1
    "<meta property=\"article:published_time\" content=\"2025-09-18T10:22:00Z\"><p>Date: January 2026</p>"
    ⟨2025, 9, 18, 10, 22, 0, 0, some 0⟩ (by decide)

/-! ## C5 — URL exclusion filters of the listing extractor

The spec says URLs *containing* the feed-comments path are excluded;
the source only excludes URLs *ending* with it (`url.endswith`), so a
URL with `/comments/feed/` in the middle survives. -/

theorem extractLoop_not_excluded {listing : List Char}
    {ms : List (Nat × Nat × Caps)} {seen : List (String × String)}
    {p : String × String × Option PyDateTime}
    (hp : p ∈ extractLoop listing ms seen) : urlExcluded p.2.1 = false := by
  induction ms generalizing seen with
  | nil => simp [extractLoop] at hp
  | cons m ms ih =>
      simp only [extractLoop] at hp
      split at hp
      · exact ih hp
      case isFalse hexcl =>
        split at hp
        · rcases List.mem_cons.mp hp with rfl | hp2
          · simpa using hexcl
          · exact ih hp2
        · exact ih hp

/-- C5 (counterexample): a listing link whose URL contains
`/comments/feed/` in the middle is kept by the extractor, refuting
"no URL in the output contains a feed-comments path". -/
theorem C5_counterexample :
    (extract_posts_from_listing
        "<h2><a href=\"https://easconsultinggroup.com/comments/feed/x/\">S</a></h2>").map
        (fun p => p.2.1) =
      ["https://easconsultinggroup.com/comments/feed/x/"] ∧
    listContains "/comments/feed/".data
      "https://easconsultinggroup.com/comments/feed/x/".data = true := by
  exact ⟨by decide, by decide⟩

/-- C5 (amended): every extracted URL fails all four exclusion tests
as the source states them — it does not end with `/feed/`, does not
end with `/comments/feed/`, does not contain `/wp-json/`, and does not
equal the listing URL modulo trailing slashes. -/
theorem C5_url_filters :
    ∀ (html : String) (p : String × String × Option PyDateTime),
      p ∈ extract_posts_from_listing html →
      "/feed/".data.isSuffixOf p.2.1.data = false ∧
      "/comments/feed/".data.isSuffixOf p.2.1.data = false ∧
      listContains "/wp-json/".data p.2.1.data = false ∧
      rstripSlashList p.2.1.data ≠ rstripSlashList BLOG_URL.data := by
  intro html p hp
  have h := @extractLoop_not_excluded html.data
    (finditer h2LinkRE html.data) [] _ hp
  unfold urlExcluded at h
  simp only [Bool.or_eq_false_iff] at h
  obtain ⟨⟨⟨h1, h2⟩, h3⟩, h4⟩ := h
  exact ⟨h1, h2, h3, by simpa using h4⟩

/-- Witness for C5: the amended filter facts at a concrete listing
with one kept post. -/
theorem C5_url_filters_witness :
    "/feed/".data.isSuffixOf "https://easconsultinggroup.com/p/".data = false ∧
    "/comments/feed/".data.isSuffixOf "https://easconsultinggroup.com/p/".data = false ∧
    listContains "/wp-json/".data "https://easconsultinggroup.com/p/".data = false ∧
    rstripSlashList "https://easconsultinggroup.com/p/".data ≠
      rstripSlashList BLOG_URL.data := by
  have h := C5_url_filters
    "<h2><a href=\"https://easconsultinggroup.com/p/\">T</a></h2>"
    ("T", "https://easconsultinggroup.com/p/", none) (by decide)
  exact h

/-! ## C4 — deduplication and order preservation -/

theorem dedupByKeyAux_nil (fuel : Nat) : dedupByKeyAux fuel [] = [] := by
  cases fuel <;> rfl

theorem dedupByKeyAux_sublist (fuel : Nat)
    (l : List (String × String × Option PyDateTime)) :
    (dedupByKeyAux fuel l).Sublist l := by
  induction fuel generalizing l with
  | zero => exact List.nil_sublist l
  | succ fuel ih =>
      cases l with
      | nil => exact List.Sublist.refl []
      | cons c rest =>
          exact List.Sublist.cons₂ c
            ((ih _).trans (List.filter_sublist rest))

theorem dedupByKeyAux_nodup (fuel : Nat)
    (l : List (String × String × Option PyDateTime)) :
    ((dedupByKeyAux fuel l).map keyOf).Nodup := by
  induction fuel generalizing l with
  | zero => simp [dedupByKeyAux]
  | succ fuel ih =>
      cases l with
      | nil => simp [dedupByKeyAux]
      | cons c rest =>
          simp only [dedupByKeyAux, List.map_cons, List.nodup_cons]
          refine ⟨?_, ih _⟩
          intro hmem
          obtain ⟨x, hx, hkx⟩ := List.mem_map.mp hmem
          have hxf := (dedupByKeyAux_sublist fuel _).mem hx
          have := List.of_mem_filter hxf
          rw [hkx] at this
          simp at this

theorem extractLoop_eq_dedup (listing : List Char) :
    ∀ (ms : List (Nat × Nat × Caps)) (seen : List (String × String)) (fuel : Nat),
      (((ms.map (candidateOf listing)).filter
        (fun c => (!(urlExcluded c.2.1) && c.1 != "") && !(seen.contains (keyOf c)))).length ≤ fuel) →
      extractLoop listing ms seen =
        dedupByKeyAux fuel ((ms.map (candidateOf listing)).filter
          (fun c => (!(urlExcluded c.2.1) && c.1 != "") && !(seen.contains (keyOf c)))) := by
  intro ms
  induction ms with
  | nil => intro seen fuel _; simp [extractLoop, dedupByKeyAux_nil]
  | cons m ms ih =>
      intro seen fuel hfuel
      simp only [List.map_cons, List.filter_cons] at hfuel ⊢
      by_cases hexcl : urlExcluded (urlOfMatch m.2.2)
      · have hc : ((!(urlExcluded (candidateOf listing m).2.1)
            && (candidateOf listing m).1 != "")
            && !(seen.contains (keyOf (candidateOf listing m)))) = false := by
          simp only [candidateOf, keyOf]
          simp [hexcl]
        rw [hc] at hfuel ⊢
        rw [if_neg Bool.false_ne_true] at hfuel ⊢
        simp only [extractLoop, if_pos hexcl]
        exact ih seen fuel hfuel
      · have hexcl2 : urlExcluded (urlOfMatch m.2.2) = false :=
          Bool.eq_false_iff.mpr hexcl
        by_cases hkeep : (titleOfMatch m.2.2 != ""
            && !(seen.contains (titleOfMatch m.2.2, urlOfMatch m.2.2))) = true
        · have hc : ((!(urlExcluded (candidateOf listing m).2.1)
              && (candidateOf listing m).1 != "")
              && !(seen.contains (keyOf (candidateOf listing m)))) = true := by
            simp only [candidateOf, keyOf, hexcl2, Bool.not_false, Bool.true_and]
            exact hkeep
          rw [hc] at hfuel ⊢
          rw [if_pos rfl] at hfuel ⊢
          cases fuel with
          | zero => simp at hfuel
          | succ fuel =>
              have harg :
                  ((ms.map (candidateOf listing)).filter
                    (fun c => (!(urlExcluded c.2.1) && c.1 != "")
                      && !(seen.contains (keyOf c)))).filter
                    (fun c2 => keyOf c2 != keyOf (candidateOf listing m)) =
                  (ms.map (candidateOf listing)).filter
                    (fun c => (!(urlExcluded c.2.1) && c.1 != "")
                      && !(((titleOfMatch m.2.2, urlOfMatch m.2.2) :: seen).contains (keyOf c))) := by
                rw [List.filter_filter]
                apply List.filter_congr
                intro c _
                simp only [keyOf, candidateOf, List.contains_cons, Bool.not_or, bne]
                cases hu : urlExcluded c.2.1 <;>
                  cases he : (c.1 == "") <;>
                    cases hs : seen.contains (c.1, c.2.1) <;>
                      cases hk : ((c.1, c.2.1) == (titleOfMatch m.2.2, urlOfMatch m.2.2)) <;>
                        rfl
              have hlen : ((ms.map (candidateOf listing)).filter
                  (fun c => (!(urlExcluded c.2.1) && c.1 != "")
                    && !(((titleOfMatch m.2.2, urlOfMatch m.2.2) :: seen).contains (keyOf c)))).length
                  ≤ fuel := by
                rw [← harg]
                calc _ ≤ ((ms.map (candidateOf listing)).filter
                      (fun c => (!(urlExcluded c.2.1) && c.1 != "")
                        && !(seen.contains (keyOf c)))).length :=
                      List.length_filter_le _ _
                  _ ≤ fuel := by simpa using hfuel
              simp only [dedupByKeyAux]
              simp only [extractLoop, if_neg hexcl, if_pos hkeep]
              rw [harg, ih ((titleOfMatch m.2.2, urlOfMatch m.2.2) :: seen) fuel hlen]
              rfl
        · have hk2 : (titleOfMatch m.2.2 != ""
              && !(seen.contains (titleOfMatch m.2.2, urlOfMatch m.2.2))) = false :=
            Bool.eq_false_iff.mpr hkeep
          have hc : ((!(urlExcluded (candidateOf listing m).2.1)
              && (candidateOf listing m).1 != "")
              && !(seen.contains (keyOf (candidateOf listing m)))) = false := by
            simp only [candidateOf, keyOf]
            cases ht : (titleOfMatch m.2.2 != "") with
            | false => simp [ht]
            | true =>
                rw [ht, Bool.true_and] at hk2
                have hs : seen.contains (titleOfMatch m.2.2, urlOfMatch m.2.2) = true := by
                  simpa using hk2
                simp only [hs, Bool.not_true, Bool.and_false]
          rw [hc] at hfuel ⊢
          rw [if_neg Bool.false_ne_true] at hfuel ⊢
          simp only [extractLoop, if_neg hexcl, if_neg hkeep]
          exact ih seen fuel hfuel

/-- C4: the extractor equals first-occurrence key-deduplication of the
valid candidates in document order; hence no two kept posts share a
`(title, url)` key, and the output is a sublist of the candidate
sequence (document order preserved, never re-sorted). -/
theorem C4_dedup_order :
    ∀ html : String,
      extract_posts_from_listing html = dedupByKey (validCandidates html) ∧
      ((extract_posts_from_listing html).map keyOf).Nodup ∧
      (extract_posts_from_listing html).Sublist (validCandidates html) := by
  intro html
  have heq : ((finditer h2LinkRE html.data).map (candidateOf html.data)).filter
      (fun c => (!(urlExcluded c.2.1) && c.1 != "")
        && !(([] : List (String × String)).contains (keyOf c))) =
      validCandidates html := by
    unfold validCandidates
    apply List.filter_congr
    intro c _
    simp
  have h1 : extract_posts_from_listing html = dedupByKey (validCandidates html) := by
    unfold extract_posts_from_listing dedupByKey
    rw [← heq]
    exact extractLoop_eq_dedup html.data (finditer h2LinkRE html.data) [] _ le_rfl
  refine ⟨h1, ?_, ?_⟩
  · rw [h1]
    unfold dedupByKey
    exact dedupByKeyAux_nodup _ _
  · rw [h1]
    unfold dedupByKey
    exact dedupByKeyAux_sublist _ _

/-! ## C6 — the item cap is applied before date resolution -/

/-- C6: with the listing fetched, `main` processes exactly the first
`MAX_ITEMS` extracted posts in document order (so the item count is
`min MAX_ITEMS (number extracted)`), and its output depends on the
fetch oracle only at the listing URL and at the URLs of capped posts
whose listing-level date is unset — no other post-page fetch can
influence the run. -/
theorem C6_cap_before_resolution :
    ∀ (fetch : String → Option String) (build_dt : PyDateTime) (L : String),
      fetch BLOG_URL = some L →
      mainRun fetch build_dt = some
        (((extract_posts_from_listing L).take MAX_ITEMS).map
          (fun p => xmlItem p.1 p.2.1 (rfc2822 (resolvePost fetch build_dt p)))) ∧
      (∀ items, mainRun fetch build_dt = some items →
        items.length = min MAX_ITEMS (extract_posts_from_listing L).length) ∧
      (∀ fetch2 : String → Option String, fetch2 BLOG_URL = some L →
        (∀ p ∈ (extract_posts_from_listing L).take MAX_ITEMS, p.2.2 = none →
          fetch2 p.2.1 = fetch p.2.1) →
        mainRun fetch2 build_dt = mainRun fetch build_dt) := by
  intro fetch build_dt L hL
  have hmain : mainRun fetch build_dt = some
      (((extract_posts_from_listing L).take MAX_ITEMS).map
        (fun p => xmlItem p.1 p.2.1 (rfc2822 (resolvePost fetch build_dt p)))) := by
    simp only [mainRun]
    rw [hL]
  refine ⟨hmain, ?_, ?_⟩
  · intro items hit
    rw [hmain] at hit
    cases hit
    simp [List.length_take]
  · intro fetch2 h2L hagree
    have hmaps :
        ((extract_posts_from_listing L).take MAX_ITEMS).map
          (fun p => xmlItem p.1 p.2.1 (rfc2822 (resolvePost fetch2 build_dt p))) =
        ((extract_posts_from_listing L).take MAX_ITEMS).map
          (fun p => xmlItem p.1 p.2.1 (rfc2822 (resolvePost fetch build_dt p))) := by
      apply List.map_congr_left
      intro p hp
      have hres : resolvePost fetch2 build_dt p = resolvePost fetch build_dt p := by
        unfold resolvePost
        cases hdt : p.2.2 with
        | some dt => rfl
        | none => rw [hagree p hp hdt]
      rw [hres]
    simp only [mainRun]
    rw [hL, h2L]
    exact congrArg some hmaps

/-- Witness for C6: a concrete one-post listing served by a concrete
oracle. -/
theorem C6_cap_before_resolution_witness :
    (mainRun
        (fun u => if u = BLOG_URL
          then some "<h2><a href=\"https://easconsultinggroup.com/p/\">T</a></h2>"
          else none)
        ⟨2025, 1, 1, 0, 0, 0, 0, some 0⟩ ≠ none) ∧
    (∀ items, mainRun
        (fun u => if u = BLOG_URL
          then some "<h2><a href=\"https://easconsultinggroup.com/p/\">T</a></h2>"
          else none)
        ⟨2025, 1, 1, 0, 0, 0, 0, some 0⟩ = some items →
      items.length = min MAX_ITEMS
        (extract_posts_from_listing
          "<h2><a href=\"https://easconsultinggroup.com/p/\">T</a></h2>").length) := by
  have h := C6_cap_before_resolution
    (fun u => if u = BLOG_URL
      then some "<h2><a href=\"https://easconsultinggroup.com/p/\">T</a></h2>"
      else none)
    ⟨2025, 1, 1, 0, 0, 0, 0, some 0⟩
    "<h2><a href=\"https://easconsultinggroup.com/p/\">T</a></h2>"
    (by simp)
  exact ⟨by rw [h.1]; exact Option.some_ne_none _, h.2.1⟩

/-! ## C9 — a post-page fetch failure is non-fatal -/

/-- C9: the run aborts exactly when the listing fetch fails; with the
listing fetched, one item is emitted per capped post, and a post whose
listing date is unset and whose page fetch fails resolves to the run's
single build timestamp, its item still present in the output. -/
theorem C9_post_fetch_failure_nonfatal :
    ∀ (fetch : String → Option String) (build_dt : PyDateTime),
      (mainRun fetch build_dt = none ↔ fetch BLOG_URL = none) ∧
      (∀ L : String, fetch BLOG_URL = some L →
        ∃ items, mainRun fetch build_dt = some items ∧
          items.length = ((extract_posts_from_listing L).take MAX_ITEMS).length ∧
          (∀ p ∈ (extract_posts_from_listing L).take MAX_ITEMS,
            p.2.2 = none → fetch p.2.1 = none →
              resolvePost fetch build_dt p = build_dt ∧
              xmlItem p.1 p.2.1 (rfc2822 build_dt) ∈ items)) := by
  intro fetch build_dt
  constructor
  · cases hf : fetch BLOG_URL with
    | none => simp [mainRun, hf]
    | some L => simp [mainRun, hf]
  · intro L hL
    refine ⟨_, by simp only [mainRun]; rw [hL], by simp, ?_⟩
    intro p hp hdt hfail
    have hres : resolvePost fetch build_dt p = build_dt := by
      simp only [resolvePost, hdt, hfail]
    refine ⟨hres, ?_⟩
    have hm := List.mem_map_of_mem
      (fun p => xmlItem p.1 p.2.1 (rfc2822 (resolvePost fetch build_dt p))) hp
    simpa [hres] using hm

/-- Witness for C9: a listing with one date-less post whose page fetch
fails; the run still emits its item with the build timestamp. -/
theorem C9_post_fetch_failure_nonfatal_witness :
    ∃ items, mainRun
        (fun u => if u = BLOG_URL
          then some "<h2><a href=\"https://easconsultinggroup.com/p/\">T</a></h2>"
          else none)
        ⟨2025, 1, 1, 0, 0, 0, 0, some 0⟩ = some items ∧
      items.length = ((extract_posts_from_listing
        "<h2><a href=\"https://easconsultinggroup.com/p/\">T</a></h2>").take MAX_ITEMS).length ∧
      (∀ p ∈ (extract_posts_from_listing
          "<h2><a href=\"https://easconsultinggroup.com/p/\">T</a></h2>").take MAX_ITEMS,
        p.2.2 = none →
        (fun u => if u = BLOG_URL
          then some "<h2><a href=\"https://easconsultinggroup.com/p/\">T</a></h2>"
          else none) p.2.1 = none →
          resolvePost
            (fun u => if u = BLOG_URL
              then some "<h2><a href=\"https://easconsultinggroup.com/p/\">T</a></h2>"
              else none)
            ⟨2025, 1, 1, 0, 0, 0, 0, some 0⟩ p = ⟨2025, 1, 1, 0, 0, 0, 0, some 0⟩ ∧
          xmlItem p.1 p.2.1 (rfc2822 ⟨2025, 1, 1, 0, 0, 0, 0, some 0⟩) ∈ items) :=
  (C9_post_fetch_failure_nonfatal
    (fun u => if u = BLOG_URL
      then some "<h2><a href=\"https://easconsultinggroup.com/p/\">T</a></h2>"
      else none)
    ⟨2025, 1, 1, 0, 0, 0, 0, some 0⟩).2
    "<h2><a href=\"https://easconsultinggroup.com/p/\">T</a></h2>" (by simp)

/-! ## C7 — calendar lemmas for UTC normalization -/

theorem daysInMonth_bounds (y m : Nat) :
    28 ≤ daysInMonth y m ∧ daysInMonth y m ≤ 31 := by
  unfold daysInMonth
  split
  · split <;> omega
  · split <;> omega

theorem dfc_day_succ (y m d : Nat) (hd1 : 1 ≤ d) :
    daysFromCivil y m (d + 1) = daysFromCivil y m d + 1 := by
  simp only [daysFromCivil]
  split <;> omega

/-- Crossing the February/March boundary: the one month step whose two
sides fall in different shifted years. -/
theorem dfc_feb_mar (y : Nat) (hy : 1 ≤ y) :
    daysFromCivil y 3 1 = daysFromCivil y 2 (daysInMonth y 2) + 1 := by
  obtain ⟨a, rfl⟩ : ∃ a, y = a + 1 := ⟨y - 1, by omega⟩
  obtain ⟨q, r, hr, rfl⟩ : ∃ q r, r < 400 ∧ a = 400 * q + r :=
    ⟨a / 400, a % 400, Nat.mod_lt _ (by norm_num), by omega⟩
  simp only [daysFromCivil, daysInMonth]
  norm_num
  cases hl : isLeap (400 * q + r + 1) with
  | true =>
      rw [if_pos rfl]
      rw [isLeap] at hl
      simp only [Bool.or_eq_true, Bool.and_eq_true, beq_iff_eq, bne_iff_ne] at hl
      rcases hl with ⟨h4, h100⟩ | h400 <;> omega
  | false =>
      rw [if_neg Bool.false_ne_true]
      rw [isLeap] at hl
      simp only [Bool.or_eq_false_iff, Bool.and_eq_false_iff, beq_eq_false_iff_ne,
        bne_eq_false_iff_eq] at hl
      rcases hl with ⟨h4 | h100, h400⟩ <;> omega

theorem dfc_nextDay {y m d y2 m2 d2 : Nat} (hy : 1 ≤ y) (hm1 : 1 ≤ m)
    (hm2 : m ≤ 12) (hd1 : 1 ≤ d) (hd2 : d ≤ daysInMonth y m)
    (hnext : nextDay y m d = some (y2, m2, d2)) :
    daysFromCivil y2 m2 d2 = daysFromCivil y m d + 1 := by
  unfold nextDay at hnext
  split at hnext
  case isTrue hlt =>
    injection hnext with h
    cases h
    exact dfc_day_succ y m d hd1
  case isFalse hlt =>
    split at hnext
    case isTrue hm12 =>
      injection hnext with h
      cases h
      have hdm : d = daysInMonth y m := by omega
      subst hdm
      interval_cases m
      · simp [daysFromCivil, daysInMonth]; omega
      · exact dfc_feb_mar y hy
      · simp [daysFromCivil, daysInMonth]; omega
      · simp [daysFromCivil, daysInMonth]; omega
      · simp [daysFromCivil, daysInMonth]; omega
      · simp [daysFromCivil, daysInMonth]; omega
      · simp [daysFromCivil, daysInMonth]; omega
      · simp [daysFromCivil, daysInMonth]; omega
      · simp [daysFromCivil, daysInMonth]; omega
      · simp [daysFromCivil, daysInMonth]; omega
      · simp [daysFromCivil, daysInMonth]; omega
    case isFalse hm12 =>
      split at hnext
      case isTrue hy9 =>
        injection hnext with h
        cases h
        have hm' : m = 12 := by omega
        subst hm'
        have hd : d = 31 := by
          simp [daysInMonth] at hd2 hlt
          omega
        subst hd
        simp [daysFromCivil]
        omega
      case isFalse => simp at hnext

theorem prevDay_nextDay {y m d y2 m2 d2 : Nat} (hy : 1 ≤ y) (hy2 : y ≤ 9999)
    (hm1 : 1 ≤ m) (hm2 : m ≤ 12) (hd1 : 1 ≤ d) (hd2 : d ≤ daysInMonth y m)
    (hprev : prevDay y m d = some (y2, m2, d2)) :
    nextDay y2 m2 d2 = some (y, m, d) ∧ 1 ≤ y2 ∧ 1 ≤ m2 ∧ m2 ≤ 12 ∧
      1 ≤ d2 ∧ d2 ≤ daysInMonth y2 m2 := by
  have hb := daysInMonth_bounds y m
  unfold prevDay at hprev
  split at hprev
  case isTrue hdgt =>
    injection hprev with h
    cases h
    have hlt : d - 1 < daysInMonth y m := by omega
    refine ⟨?_, hy, hm1, hm2, by omega, by omega⟩
    unfold nextDay
    rw [if_pos hlt]
    have hde : d - 1 + 1 = d := by omega
    rw [hde]
  case isFalse hdgt =>
    split at hprev
    case isTrue hmgt =>
      injection hprev with h
      cases h
      have hb2 := daysInMonth_bounds y (m - 1)
      have hd : d = 1 := by omega
      refine ⟨?_, hy, by omega, by omega, by omega, le_rfl⟩
      unfold nextDay
      rw [if_neg (by omega), if_pos (by omega)]
      have hme : m - 1 + 1 = m := by omega
      rw [hme, hd]
    case isFalse hmgt =>
      split at hprev
      case isTrue hygt =>
        injection hprev with h
        cases h
        have hm' : m = 1 := by omega
        have hd : d = 1 := by omega
        have h31 : daysInMonth (y - 1) 12 = 31 := by simp [daysInMonth]
        refine ⟨?_, by omega, by omega, by omega, by omega, by omega⟩
        unfold nextDay
        rw [if_neg (by omega), if_neg (by omega), if_pos (by omega)]
        have hye : y - 1 + 1 = y := by omega
        rw [hye, hm', hd]
      case isFalse => simp at hprev

theorem dfc_prevDay {y m d y2 m2 d2 : Nat} (hy : 1 ≤ y) (hy2 : y ≤ 9999)
    (hm1 : 1 ≤ m) (hm2 : m ≤ 12) (hd1 : 1 ≤ d) (hd2 : d ≤ daysInMonth y m)
    (hprev : prevDay y m d = some (y2, m2, d2)) :
    daysFromCivil y2 m2 d2 = daysFromCivil y m d - 1 := by
  obtain ⟨hnext, hb1, hb2, hb3, hb4, hb5⟩ :=
    prevDay_nextDay hy hy2 hm1 hm2 hd1 hd2 hprev
  have := dfc_nextDay hb1 hb2 hb3 hb4 hb5 hnext
  omega

theorem astimezoneUTC_offSec {dt u : PyDateTime}
    (hU : astimezoneUTC dt = some u) : u.offSec = some 0 := by
  obtain ⟨y, mo, d, hhh, mi, ss, us, offo⟩ := dt
  cases offo with
  | none => simp [astimezoneUTC] at hU
  | some off =>
      simp only [astimezoneUTC] at hU
      split at hU
      · cases hU; rfl
      · split at hU
        · rcases hp : prevDay y mo d with _ | ⟨y2, m2, d2⟩ <;> rw [hp] at hU
          · simp at hU
          · cases hU; rfl
        · rcases hp : nextDay y mo d with _ | ⟨y2, m2, d2⟩ <;> rw [hp] at hU
          · simp at hU
          · cases hU; rfl

/-- `astimezone(timezone.utc)` is the identity on an in-range datetime
that is already UTC. -/
theorem astimezoneUTC_zero {y mo d hh mi ss us : Nat}
    (hh23 : hh ≤ 23) (hmi : mi ≤ 59) (hss : ss ≤ 59) :
    astimezoneUTC ⟨y, mo, d, hh, mi, ss, us, some 0⟩ =
      some ⟨y, mo, d, hh, mi, ss, us, some 0⟩ := by
  simp only [astimezoneUTC]
  split
  case isTrue h =>
    have ht : (((hh * 3600 + mi * 60 + ss : Nat) : Int) - 0).toNat =
        hh * 3600 + mi * 60 + ss := by omega
    rw [ht]
    have h1 : (hh * 3600 + mi * 60 + ss) / 3600 = hh := by omega
    have h2 : (hh * 3600 + mi * 60 + ss) / 60 % 60 = mi := by omega
    have h3 : (hh * 3600 + mi * 60 + ss) % 60 = ss := by omega
    rw [h1, h2, h3]
  case isFalse h =>
    exact absurd ⟨by omega, by omega⟩ h

/-- The UTC normalization preserves the denoted instant (and fixes the
offset to zero). -/
theorem astimezoneUTC_instant {dt u : PyDateTime} {off : Int}
    (hy : 1 ≤ dt.year) (hy2 : dt.year ≤ 9999)
    (hm1 : 1 ≤ dt.month) (hm2 : dt.month ≤ 12)
    (hd1 : 1 ≤ dt.day) (hd2 : dt.day ≤ daysInMonth dt.year dt.month)
    (hh : dt.hour ≤ 23) (hmi : dt.minute ≤ 59) (hs : dt.second ≤ 59)
    (hoff : dt.offSec = some off) (ho1 : -86400 < off) (ho2 : off < 86400)
    (hU : astimezoneUTC dt = some u) :
    toInstantSec u = toInstantSec dt ∧ u.offSec = some 0 ∧ u.usec = dt.usec := by
  obtain ⟨y, mo, d, hhh, mi, ss, us, offo⟩ := dt
  simp only at hy hy2 hm1 hm2 hd1 hd2 hh hmi hs hoff
  subst hoff
  simp only [astimezoneUTC] at hU
  split at hU
  case isTrue hin =>
    cases hU
    have ht : ((((hhh * 3600 + mi * 60 + ss : Nat) : Int) - off).toNat : Int) =
        ((hhh * 3600 + mi * 60 + ss : Nat) : Int) - off :=
      Int.toNat_of_nonneg hin.1
    refine ⟨?_, rfl, rfl⟩
    simp only [toInstantSec, Option.getD_some]
    omega
  case isFalse hin =>
    split at hU
    case isTrue hneg =>
      rcases hp : prevDay y mo d with _ | ⟨y2, m2, d2⟩ <;> rw [hp] at hU
      · simp at hU
      · cases hU
        have hdfc := dfc_prevDay hy hy2 hm1 hm2 hd1 hd2 hp
        have ht : ((((hhh * 3600 + mi * 60 + ss : Nat) : Int) - off + 86400).toNat : Int) =
            ((hhh * 3600 + mi * 60 + ss : Nat) : Int) - off + 86400 :=
          Int.toNat_of_nonneg (by omega)
        refine ⟨?_, rfl, rfl⟩
        simp only [toInstantSec, Option.getD_some]
        omega
    case isFalse hpos =>
      rcases hp : nextDay y mo d with _ | ⟨y2, m2, d2⟩ <;> rw [hp] at hU
      · simp at hU
      · cases hU
        have hdfc := dfc_nextDay hy hm1 hm2 hd1 hd2 hp
        have ht : ((((hhh * 3600 + mi * 60 + ss : Nat) : Int) - off - 86400).toNat : Int) =
            ((hhh * 3600 + mi * 60 + ss : Nat) : Int) - off - 86400 :=
          Int.toNat_of_nonneg (by omega)
        refine ⟨?_, rfl, rfl⟩
        simp only [toInstantSec, Option.getD_some]
        omega

theorem parseTzOffset_range {sign : Int} {tz : List Char} {off : Int}
    (h : parseTzOffset sign tz = some off) : -86400 < off ∧ off < 86400 := by
  unfold parseTzOffset at h
  split at h
  · split at h
    · simp at h
    · split at h
      case isTrue hcond =>
        cases h
        exact hcond
      case isFalse => simp at h
  · simp at h

theorem mkDateTime_of_bounds {y mo d h mi s us : Nat} (off : Option Int)
    (h1 : 1 ≤ y) (h2 : y ≤ 9999) (h3 : 1 ≤ mo) (h4 : mo ≤ 12) (h5 : 1 ≤ d)
    (h6 : d ≤ daysInMonth y mo) (h7 : h ≤ 23) (h8 : mi ≤ 59) (h9 : s ≤ 59)
    (h10 : us ≤ 999999) :
    mkDateTime y mo d h mi s us off = some ⟨y, mo, d, h, mi, s, us, off⟩ := by
  unfold mkDateTime
  rw [if_pos]
  simp only [Bool.and_eq_true, decide_eq_true_eq]
  exact ⟨⟨⟨⟨⟨⟨⟨⟨⟨h1, h2⟩, h3⟩, h4⟩, h5⟩, h6⟩, h7⟩, h8⟩, h9⟩, h10⟩

theorem fromisoformat_bounds {s : List Char} {d : PyDateTime}
    (h : fromisoformat s = some d) :
    1 ≤ d.year ∧ d.year ≤ 9999 ∧ 1 ≤ d.month ∧ d.month ≤ 12 ∧ 1 ≤ d.day ∧
      d.day ≤ daysInMonth d.year d.month ∧ d.hour ≤ 23 ∧ d.minute ≤ 59 ∧
      d.second ≤ 59 ∧
      ∀ o : Int, d.offSec = some o → -86400 < o ∧ o < 86400 := by
  unfold fromisoformat at h
  split at h
  · simp at h
  · split at h
    · simp at h
    case h_2 y mo dd heq =>
      split at h
      · obtain ⟨hdt, hb⟩ := mkDateTime_shape h
        subst hdt
        refine ⟨hb.1, hb.2.1, hb.2.2.1, hb.2.2.2.1, hb.2.2.2.2.1,
          hb.2.2.2.2.2.1, hb.2.2.2.2.2.2.1, hb.2.2.2.2.2.2.2.1,
          hb.2.2.2.2.2.2.2.2.1, ?_⟩
        intro o ho
        simp at ho
      · split at h
        · simp at h
        case h_2 hh mi sec us heqt =>
          split at h
          · obtain ⟨hdt, hb⟩ := mkDateTime_shape h
            subst hdt
            refine ⟨hb.1, hb.2.1, hb.2.2.1, hb.2.2.2.1, hb.2.2.2.2.1,
              hb.2.2.2.2.2.1, hb.2.2.2.2.2.2.1, hb.2.2.2.2.2.2.2.1,
              hb.2.2.2.2.2.2.2.2.1, ?_⟩
            intro o ho
            simp at ho
          case h_2 sign tz =>
            split at h
            · simp at h
            case h_2 off heqo =>
              obtain ⟨hdt, hb⟩ := mkDateTime_shape h
              subst hdt
              refine ⟨hb.1, hb.2.1, hb.2.2.1, hb.2.2.2.1, hb.2.2.2.2.1,
                hb.2.2.2.2.2.1, hb.2.2.2.2.2.2.1, hb.2.2.2.2.2.2.2.1,
                hb.2.2.2.2.2.2.2.2.1, ?_⟩
              intro o ho
              simp only [Option.some.injEq] at ho
              subst ho
              exact parseTzOffset_range heqo

theorem assumeUTC_of_some {d : PyDateTime} {o : Int} (h : d.offSec = some o) :
    assumeUTC d = d := by
  unfold assumeUTC
  rw [h]
  rfl

theorem assumeUTC_of_none {d : PyDateTime} (h : d.offSec = none) :
    assumeUTC d = { d with offSec := some 0 } := by
  unfold assumeUTC
  rw [h]
  rfl

/-! ### C7 — UTC normalization in `iso_to_dt`

The spec's unconditional "an explicit offset is converted to the
equivalent UTC instant" fails at the edges of the representable year
range: there Python's `astimezone` overflows, the exception is caught,
and the date-only fallback returns midnight of the *literal* date —
a different instant.  `"0001-01-01T00:30:00+01:00"` is such an input. -/

/-- C7 (counterexample): an accepted offset-carrying string whose
result does not denote the same instant as its parsed fields. -/
theorem C7_counterexample :
    iso_to_dt "0001-01-01T00:30:00+01:00" = some ⟨1, 1, 1, 0, 0, 0, 0, some 0⟩ ∧
    fromisoformat (isoPrep "0001-01-01T00:30:00+01:00") =
      some ⟨1, 1, 1, 0, 30, 0, 0, some 3600⟩ ∧
    hasExplicitTZ "0001-01-01T00:30:00+01:00" = true ∧
    toInstantSec ⟨1, 1, 1, 0, 0, 0, 0, some 0⟩ ≠
      toInstantSec ⟨1, 1, 1, 0, 30, 0, 0, some 3600⟩ := by
  refine ⟨by decide, by decide, by decide, by decide⟩

/-- C7 (amended): every accepted string yields an offset-zero (UTC)
result; an explicit offset is converted to the equivalent UTC instant
whenever the conversion is representable; an offset-less date-time is
assumed to already be UTC (fields kept, offset set to zero); and a
valid date-only value resolves to midnight UTC of that day. -/
theorem C7_utc_normalization :
    (∀ (s : String) (dt : PyDateTime), iso_to_dt s = some dt →
      dt.offSec = some 0) ∧
    (∀ (s : String) (d0 u : PyDateTime) (off : Int),
      fromisoformat (isoPrep s) = some d0 → d0.offSec = some off →
      astimezoneUTC d0 = some u →
      iso_to_dt s = some u ∧ toInstantSec u = toInstantSec d0 ∧
        u.offSec = some 0) ∧
    (∀ (s : String) (y mo d hh mi ss us : Nat),
      fromisoformat (isoPrep s) = some ⟨y, mo, d, hh, mi, ss, us, none⟩ →
      iso_to_dt s = some ⟨y, mo, d, hh, mi, ss, us, some 0⟩) ∧
    (∀ (s : String) (y mo dd : Nat) (dtv : PyDateTime),
      (isoPrep s).length = 10 →
      parseIsoDateStrict (isoPrep s) = some (y, mo, dd) →
      mkDateTime y mo dd 0 0 0 0 (some 0) = some dtv →
      iso_to_dt s = some dtv ∧ dtv.hour = 0 ∧ dtv.minute = 0 ∧
        dtv.second = 0 ∧ dtv.offSec = some 0) := by
  refine ⟨?_, ?_, ?_, ?_⟩
  · intro s dt h
    simp only [iso_to_dt] at h
    rcases hf : fromisoformat (isoPrep s) with _ | d0 <;> rw [hf] at h
    · exact (strptimeYmd_shape h).2.2.2.2
    · have h2 : (match astimezoneUTC (assumeUTC d0) with
          | some r => some r
          | none => strptimeYmd ((isoPrep s).take 10)) = some dt := h
      rcases ha : astimezoneUTC (assumeUTC d0) with _ | r <;> rw [ha] at h2
      · exact (strptimeYmd_shape h2).2.2.2.2
      · cases h2
        exact astimezoneUTC_offSec ha
  · intro s d0 u off hf hoff hU
    obtain ⟨b1, b2, b3, b4, b5, b6, b7, b8, b9, boff⟩ := fromisoformat_bounds hf
    obtain ⟨ho1, ho2⟩ := boff off hoff
    obtain ⟨hinst, hu0, -⟩ :=
      astimezoneUTC_instant b1 b2 b3 b4 b5 b6 b7 b8 b9 hoff ho1 ho2 hU
    refine ⟨?_, hinst, hu0⟩
    simp only [iso_to_dt]
    rw [hf]
    show (match astimezoneUTC (assumeUTC d0) with
        | some r => some r
        | none => strptimeYmd ((isoPrep s).take 10)) = some u
    rw [assumeUTC_of_some hoff, hU]
  · intro s y mo d hh mi ss us hf
    obtain ⟨b1, b2, b3, b4, b5, b6, b7, b8, b9, -⟩ := fromisoformat_bounds hf
    simp only at b7 b8 b9
    have key : astimezoneUTC (assumeUTC ⟨y, mo, d, hh, mi, ss, us, none⟩) =
        some ⟨y, mo, d, hh, mi, ss, us, some 0⟩ :=
      (congrArg astimezoneUTC
        (assumeUTC_of_none (d := ⟨y, mo, d, hh, mi, ss, us, none⟩) rfl)).trans
        (astimezoneUTC_zero b7 b8 b9)
    simp only [iso_to_dt]
    split
    case h_1 d0' heq =>
      have hd0 : (⟨y, mo, d, hh, mi, ss, us, none⟩ : PyDateTime) = d0' := by
        have h2 := hf.symm.trans heq
        injection h2
      subst hd0
      rw [key]
    case h_2 heq =>
      rw [hf] at heq
      simp at heq
  · intro s y mo dd dtv hlen hparse hmk
    obtain ⟨hdtv, c1, c2, c3, c4, c5, c6, c7, c8, c9, c10⟩ := mkDateTime_shape hmk
    have hfe : fromisoformat (isoPrep s) = some ⟨y, mo, dd, 0, 0, 0, 0, none⟩ := by
      unfold fromisoformat
      rw [if_neg (by omega)]
      have htake : (isoPrep s).take 10 = isoPrep s := by
        rw [← hlen, List.take_length]
      rw [htake, hparse]
      have hdrop : (isoPrep s).drop 11 = [] :=
        List.drop_eq_nil_of_le (by omega)
      rw [hdrop]
      simp only [List.isEmpty_nil, if_true]
      exact mkDateTime_of_bounds none c1 c2 c3 c4 c5 c6 c7 c8 c9 c10
    subst hdtv
    refine ⟨?_, rfl, rfl, rfl, rfl⟩
    have key : astimezoneUTC (assumeUTC ⟨y, mo, dd, 0, 0, 0, 0, none⟩) =
        some ⟨y, mo, dd, 0, 0, 0, 0, some 0⟩ :=
      (congrArg astimezoneUTC
        (assumeUTC_of_none (d := ⟨y, mo, dd, 0, 0, 0, 0, none⟩) rfl)).trans
        (astimezoneUTC_zero (by simp) (by simp) (by simp))
    simp only [iso_to_dt]
    split
    case h_1 d0' heq =>
      have hd0 : (⟨y, mo, dd, 0, 0, 0, 0, none⟩ : PyDateTime) = d0' := by
        have h2 := hfe.symm.trans heq
        injection h2
      subst hd0
      rw [key]
    case h_2 heq =>
      rw [hfe] at heq
      simp at heq

/-- Witness for C7: the amended offset-conversion statement at the
concrete input `"2025-09-18T10:22:00+05:30"`. -/
theorem C7_utc_normalization_witness :
    iso_to_dt "2025-09-18T10:22:00+05:30" =
        some ⟨2025, 9, 18, 4, 52, 0, 0, some 0⟩ ∧
    toInstantSec ⟨2025, 9, 18, 4, 52, 0, 0, some 0⟩ =
      toInstantSec ⟨2025, 9, 18, 10, 22, 0, 0, some 19800⟩ ∧
    (⟨2025, 9, 18, 4, 52, 0, 0, some 0⟩ : PyDateTime).offSec = some 0 :=
  C7_utc_normalization.2.1 "2025-09-18T10:22:00+05:30"
    ⟨2025, 9, 18, 10, 22, 0, 0, some 19800⟩
    ⟨2025, 9, 18, 4, 52, 0, 0, some 0⟩ 19800
    (by decide) (by decide) (by decide)

/-! ## C10 — the first-ten-characters fallback of `iso_to_dt` -/

/-- C10: whenever the whole-string ISO branch fails, `iso_to_dt` is
exactly the `%Y-%m-%d` parse of the first ten (preprocessed)
characters, and any such parse yields midnight UTC of that calendar
date; in particular `"2025-09-18garbage"` parses to
2025-09-18T00:00:00Z. -/
theorem C10_first10_fallback :
    (∀ (s : String) (dt : PyDateTime), isoWholeFails s = true →
      strptimeYmd ((isoPrep s).take 10) = some dt →
      iso_to_dt s = some dt ∧ dt.hour = 0 ∧ dt.minute = 0 ∧ dt.second = 0 ∧
        dt.usec = 0 ∧ dt.offSec = some 0) ∧
    iso_to_dt "2025-09-18garbage" = some ⟨2025, 9, 18, 0, 0, 0, 0, some 0⟩ := by
  constructor
  · intro s dt hw hp
    unfold isoWholeFails at hw
    refine ⟨?_, strptimeYmd_shape hp⟩
    simp only [iso_to_dt]
    rcases hf : fromisoformat (isoPrep s) with _ | d0
    · exact hp
    · rw [hf] at hw
      simp only [Option.isNone_iff_eq_none] at hw
      simp only [hw]
      exact hp
  · decide

/-- Witness for C10: the general fallback statement applied at the
concrete input `"2025-09-18xy"` (whose whole-string ISO parse fails). -/
theorem C10_first10_fallback_witness :
    iso_to_dt "2025-09-18xy" = some ⟨2025, 9, 18, 0, 0, 0, 0, some 0⟩ ∧
    (2025 : Nat) = 2025 := by
  refine ⟨(C10_first10_fallback.1 "2025-09-18xy" ⟨2025, 9, 18, 0, 0, 0, 0, some 0⟩
    (by decide) (by decide)).1, rfl⟩


/-! ## C8 — round-trip through the RFC-2822 formatter -/

theorem digitVal_digitChar {n : Nat} (h : n ≤ 9) :
    digitVal (digitChar n) = n := by
  interval_cases n <;> decide

theorem isAsciiDigit_digitChar {n : Nat} (h : n ≤ 9) :
    isAsciiDigit (digitChar n) = true := by
  interval_cases n <;> decide

theorem parse2dig_pad2 {n : Nat} (h : n ≤ 99) (rest : List Char) :
    parse2dig (pad2 n ++ rest) = some (n, rest) := by
  have h1 : n / 10 ≤ 9 := by omega
  have h2 : n % 10 ≤ 9 := by omega
  simp only [pad2, List.cons_append, List.nil_append, parse2dig,
    isAsciiDigit_digitChar h1, isAsciiDigit_digitChar h2, Bool.and_self, if_true,
    digitVal_digitChar h1, digitVal_digitChar h2]
  have h3 : n / 10 * 10 + n % 10 = n := by omega
  rw [h3]

theorem digitsToNat_append_single (cs : List Char) (c : Char) :
    digitsToNat (cs ++ [c]) = digitsToNat cs * 10 + digitVal c := by
  simp [digitsToNat, List.foldl_append]

theorem natDigitsAux_toNat : ∀ fuel n : Nat, n ≤ fuel →
    digitsToNat (natDigitsAux fuel n) = n := by
  intro fuel
  induction fuel with
  | zero =>
      intro n hn
      have : n = 0 := by omega
      subst this
      decide
  | succ f ih =>
      intro n hn
      by_cases h0 : n = 0
      · subst h0
        simp [natDigitsAux, digitsToNat]
      · have hne : (n == 0) = false := by simp [h0]
        simp only [natDigitsAux, hne, Bool.false_eq_true, if_false]
        rw [digitsToNat_append_single, ih (n / 10) (by omega),
          digitVal_digitChar (by omega : n % 10 ≤ 9)]
        omega

theorem digitsToNat_natToDecimal (n : Nat) :
    digitsToNat (natToDecimal n) = n := by
  by_cases h0 : n = 0
  · subst h0; decide
  · have hne : (n == 0) = false := by simp [h0]
    simp only [natToDecimal, hne, Bool.false_eq_true, if_false]
    exact natDigitsAux_toNat n n le_rfl

theorem natDigitsAux_digit : ∀ fuel n : Nat, ∀ c ∈ natDigitsAux fuel n,
    isAsciiDigit c = true := by
  intro fuel
  induction fuel with
  | zero => intro n c hc; simp [natDigitsAux] at hc
  | succ f ih =>
      intro n c hc
      simp only [natDigitsAux] at hc
      split at hc
      · simp at hc
      · rcases List.mem_append.mp hc with hl | hr
        · exact ih (n / 10) c hl
        · have : c = digitChar (n % 10) := by simpa using hr
          subst this
          exact isAsciiDigit_digitChar (by omega)

theorem natToDecimal_digit (n : Nat) :
    ∀ c ∈ natToDecimal n, isAsciiDigit c = true := by
  intro c hc
  by_cases h0 : n = 0
  · subst h0
    simp only [natToDecimal] at hc
    have : c = '0' := by simpa using hc
    subst this
    decide
  · have hne : (n == 0) = false := by simp [h0]
    simp only [natToDecimal, hne, Bool.false_eq_true, if_false] at hc
    exact natDigitsAux_digit n n c hc

theorem natToDecimal_ne_nil (n : Nat) : natToDecimal n ≠ [] := by
  by_cases h0 : n = 0
  · subst h0; decide
  · have hne : (n == 0) = false := by simp [h0]
    simp only [natToDecimal, hne, Bool.false_eq_true, if_false]
    obtain ⟨f, rfl⟩ : ∃ f, n = f + 1 := ⟨n - 1, by omega⟩
    simp only [natDigitsAux, hne, Bool.false_eq_true, if_false]
    simp

theorem takeWhile_digits_append {l : List Char} (rest : List Char)
    (hl : ∀ c ∈ l, isAsciiDigit c = true) :
    (l ++ ' ' :: rest).takeWhile isAsciiDigit = l ∧
    (l ++ ' ' :: rest).dropWhile isAsciiDigit = ' ' :: rest := by
  have hsp : isAsciiDigit ' ' = false := by decide
  induction l with
  | nil =>
      constructor <;>
        simp [List.takeWhile_cons, List.dropWhile_cons, hsp]
  | cons c t ih =>
      have hc : isAsciiDigit c = true := hl c (List.mem_cons_self c t)
      have ih2 := ih (fun x hx => hl x (List.mem_cons_of_mem c hx))
      constructor
      · simp only [List.cons_append, List.takeWhile_cons, hc, if_true, ih2.1]
      · simp only [List.cons_append, List.dropWhile_cons, hc, if_true, ih2.2]

theorem monthAbbrev_shape {mo : Nat} (h1 : 1 ≤ mo) (h2 : mo ≤ 12) :
    ∃ m1 m2 m3, monthAbbrev mo = [m1, m2, m3] ∧
      monthFromAbbrev [m1, m2, m3] = some mo := by
  interval_cases mo <;> exact ⟨_, _, _, rfl, by decide⟩

theorem weekdayAbbrev_shape {w : Nat} (h : w < 7) :
    ∃ a b c, weekdayAbbrev w = [a, b, c] ∧
      ((isAsciiAlpha a && isAsciiAlpha b) && isAsciiAlpha c) = true := by
  interval_cases w <;> exact ⟨_, _, _, rfl, by decide⟩

theorem dayOfWeek_lt (y m d : Nat) : dayOfWeek y m d < 7 := by
  unfold dayOfWeek
  exact Nat.mod_lt _ (by norm_num)


theorem prevDay_bounds {y m d y2 m2 d2 : Nat} (hy : 1 ≤ y) (hy2 : y ≤ 9999)
    (hm1 : 1 ≤ m) (hm2 : m ≤ 12) (_hd1 : 1 ≤ d) (hd2 : d ≤ daysInMonth y m)
    (hp : prevDay y m d = some (y2, m2, d2)) :
    1 ≤ y2 ∧ y2 ≤ 9999 ∧ 1 ≤ m2 ∧ m2 ≤ 12 ∧ 1 ≤ d2 ∧ d2 ≤ 31 := by
  have hdim := daysInMonth_bounds y m
  have hdim2 := daysInMonth_bounds y (m - 1)
  unfold prevDay at hp
  split at hp
  · cases hp
    exact ⟨hy, hy2, hm1, hm2, by omega, by omega⟩
  · split at hp
    · cases hp
      exact ⟨hy, hy2, by omega, by omega, by omega, by omega⟩
    · split at hp
      · cases hp
        exact ⟨by omega, by omega, by omega, by omega, by omega, by omega⟩
      · simp at hp

theorem nextDay_bounds {y m d y2 m2 d2 : Nat} (hy : 1 ≤ y) (hy2 : y ≤ 9999)
    (hm1 : 1 ≤ m) (hm2 : m ≤ 12) (hd1 : 1 ≤ d) (_hd2 : d ≤ daysInMonth y m)
    (hp : nextDay y m d = some (y2, m2, d2)) :
    1 ≤ y2 ∧ y2 ≤ 9999 ∧ 1 ≤ m2 ∧ m2 ≤ 12 ∧ 1 ≤ d2 ∧ d2 ≤ 31 := by
  have hdim := daysInMonth_bounds y m
  unfold nextDay at hp
  split at hp
  · cases hp
    exact ⟨hy, hy2, hm1, hm2, by omega, by omega⟩
  · split at hp
    · cases hp
      exact ⟨hy, hy2, by omega, by omega, by omega, by omega⟩
    · split at hp
      · cases hp
        exact ⟨by omega, by omega, by omega, by omega, by omega, by omega⟩
      · simp at hp

/-- Field bounds of a successful UTC normalization. -/
theorem astimezoneUTC_bounds {dt u : PyDateTime} {off : Int}
    (hy : 1 ≤ dt.year) (hy2 : dt.year ≤ 9999)
    (hm1 : 1 ≤ dt.month) (hm2 : dt.month ≤ 12)
    (hd1 : 1 ≤ dt.day) (hd2 : dt.day ≤ daysInMonth dt.year dt.month)
    (hh : dt.hour ≤ 23) (hmi : dt.minute ≤ 59) (hs : dt.second ≤ 59)
    (hoff : dt.offSec = some off) (ho1 : -86400 < off) (ho2 : off < 86400)
    (hU : astimezoneUTC dt = some u) :
    1 ≤ u.year ∧ u.year ≤ 9999 ∧ 1 ≤ u.month ∧ u.month ≤ 12 ∧
      1 ≤ u.day ∧ u.day ≤ 31 ∧ u.hour ≤ 23 ∧ u.minute ≤ 59 ∧ u.second ≤ 59 := by
  have hdim := daysInMonth_bounds dt.year dt.month
  obtain ⟨y, mo, d, hhh, mi, ss, us, offo⟩ := dt
  simp only at hy hy2 hm1 hm2 hd1 hd2 hh hmi hs hoff hdim
  subst hoff
  simp only [astimezoneUTC] at hU
  split at hU
  case isTrue hin =>
    cases hU
    have ht : ((((hhh * 3600 + mi * 60 + ss : Nat) : Int) - off).toNat : Int) =
        ((hhh * 3600 + mi * 60 + ss : Nat) : Int) - off :=
      Int.toNat_of_nonneg hin.1
    refine ⟨?_, ?_, ?_, ?_, ?_, ?_, ?_, ?_, ?_⟩ <;> simp only <;> omega
  case isFalse hin =>
    split at hU
    case isTrue hneg =>
      rcases hp : prevDay y mo d with _ | ⟨y2, m2, d2⟩ <;> rw [hp] at hU
      · simp at hU
      · cases hU
        obtain ⟨p1, p2, p3, p4, p5, p6⟩ :=
          prevDay_bounds hy hy2 hm1 hm2 hd1 hd2 hp
        have ht : ((((hhh * 3600 + mi * 60 + ss : Nat) : Int) - off + 86400).toNat : Int) =
            ((hhh * 3600 + mi * 60 + ss : Nat) : Int) - off + 86400 :=
          Int.toNat_of_nonneg (by omega)
        refine ⟨?_, ?_, ?_, ?_, ?_, ?_, ?_, ?_, ?_⟩ <;> simp only <;> omega
    case isFalse hpos =>
      rcases hp : nextDay y mo d with _ | ⟨y2, m2, d2⟩ <;> rw [hp] at hU
      · simp at hU
      · cases hU
        obtain ⟨p1, p2, p3, p4, p5, p6⟩ :=
          nextDay_bounds hy hy2 hm1 hm2 hd1 hd2 hp
        have ht : ((((hhh * 3600 + mi * 60 + ss : Nat) : Int) - off - 86400).toNat : Int) =
            ((hhh * 3600 + mi * 60 + ss : Nat) : Int) - off - 86400 :=
          Int.toNat_of_nonneg (by omega)
        refine ⟨?_, ?_, ?_, ?_, ?_, ?_, ?_, ?_, ?_⟩ <;> simp only <;> omega

/-- Field bounds of a successful `%Y-%m-%d` fallback parse. -/
theorem strptimeYmd_bounds {cs : List Char} {dt : PyDateTime}
    (h : strptimeYmd cs = some dt) :
    1 ≤ dt.year ∧ dt.year ≤ 9999 ∧ 1 ≤ dt.month ∧ dt.month ≤ 12 ∧
      1 ≤ dt.day ∧ dt.day ≤ 31 ∧ dt.hour = 0 ∧ dt.minute = 0 ∧
      dt.second = 0 ∧ dt.usec = 0 ∧ dt.offSec = some 0 := by
  unfold strptimeYmd at h
  obtain ⟨y, r1, h1⟩ := matchYear4_some h
  split at h1
  case h_1 r2 =>
    obtain ⟨mo, r3, h2⟩ := matchMonthNum_some h1
    split at h2
    case h_1 r4 =>
      obtain ⟨d, r5, h3⟩ := matchDayOfMonth_some h2
      split at h3
      · obtain ⟨hdt, hb⟩ := mkDateTime_shape h3
        have hdim := daysInMonth_bounds y mo
        subst hdt
        exact ⟨hb.1, hb.2.1, hb.2.2.1, hb.2.2.2.1, hb.2.2.2.2.1,
          by simp only; have := hb.2.2.2.2.2.1; omega, rfl, rfl, rfl, rfl, rfl⟩
      · simp at h3
    · simp at h2
  · simp at h1

/-- Field bounds of every accepted `iso_to_dt` result. -/
theorem iso_to_dt_bounds {s : String} {dt : PyDateTime}
    (h : iso_to_dt s = some dt) :
    1 ≤ dt.year ∧ dt.year ≤ 9999 ∧ 1 ≤ dt.month ∧ dt.month ≤ 12 ∧
      1 ≤ dt.day ∧ dt.day ≤ 31 ∧ dt.hour ≤ 23 ∧ dt.minute ≤ 59 ∧
      dt.second ≤ 59 ∧ dt.offSec = some 0 := by
  simp only [iso_to_dt] at h
  rcases hf : fromisoformat (isoPrep s) with _ | d0 <;> rw [hf] at h
  · obtain ⟨b1, b2, b3, b4, b5, b6, b7, b8, b9, b10, b11⟩ := strptimeYmd_bounds h
    exact ⟨b1, b2, b3, b4, b5, b6, by omega, by omega, by omega, b11⟩
  · have h2 : (match astimezoneUTC (assumeUTC d0) with
        | some r => some r
        | none => strptimeYmd ((isoPrep s).take 10)) = some dt := h
    rcases ha : astimezoneUTC (assumeUTC d0) with _ | r <;> rw [ha] at h2
    · obtain ⟨b1, b2, b3, b4, b5, b6, b7, b8, b9, b10, b11⟩ := strptimeYmd_bounds h2
      exact ⟨b1, b2, b3, b4, b5, b6, by omega, by omega, by omega, b11⟩
    · cases h2
      obtain ⟨b1, b2, b3, b4, b5, b6, b7, b8, b9, boff⟩ := fromisoformat_bounds hf
      rcases hofo : d0.offSec with _ | off
      · rw [assumeUTC_of_none hofo] at ha
        have hofs : ({ d0 with offSec := some 0 } : PyDateTime).offSec =
            some 0 := rfl
        obtain ⟨u1, u2, u3, u4, u5, u6, u7, u8, u9⟩ :=
          @astimezoneUTC_bounds { d0 with offSec := some 0 } _ 0
            b1 b2 b3 b4 b5 b6 b7 b8 b9 hofs (by omega) (by omega) ha
        exact ⟨u1, u2, u3, u4, u5, u6, u7, u8, u9, astimezoneUTC_offSec ha⟩
      · rw [assumeUTC_of_some hofo] at ha
        obtain ⟨ho1, ho2⟩ := boff off hofo
        obtain ⟨u1, u2, u3, u4, u5, u6, u7, u8, u9⟩ :=
          astimezoneUTC_bounds b1 b2 b3 b4 b5 b6 b7 b8 b9 hofo ho1 ho2 ha
        exact ⟨u1, u2, u3, u4, u5, u6, u7, u8, u9, astimezoneUTC_offSec ha⟩


theorem takeWhile_digits {l : List Char}
    (hl : ∀ c ∈ l, isAsciiDigit c = true) (rest : List Char) :
    (l ++ ' ' :: rest).takeWhile isAsciiDigit = l :=
  (takeWhile_digits_append rest hl).1

theorem dropWhile_digits {l : List Char}
    (hl : ∀ c ∈ l, isAsciiDigit c = true) (rest : List Char) :
    (l ++ ' ' :: rest).dropWhile isAsciiDigit = ' ' :: rest :=
  (takeWhile_digits_append rest hl).2

theorem natToDecimal_isEmpty (n : Nat) : (natToDecimal n).isEmpty = false := by
  cases hc : natToDecimal n with
  | nil => exact absurd hc (natToDecimal_ne_nil n)
  | cons a t => rfl

theorem strData_comma : ", ".data = [',', ' '] := rfl

theorem strData_off : " +0000".data = [' ', '+', '0', '0', '0', '0'] := rfl

/-- Reading back the formatter's output recovers the datetime with the
microseconds dropped, for any in-range UTC datetime. -/
theorem rfc2822_roundtrip_core {dtv : PyDateTime}
    (hy : 1 ≤ dtv.year) (hy2 : dtv.year ≤ 9999)
    (hm1 : 1 ≤ dtv.month) (hm2 : dtv.month ≤ 12)
    (hd1 : 1 ≤ dtv.day) (hd2 : dtv.day ≤ 31)
    (hh : dtv.hour ≤ 23) (hmi : dtv.minute ≤ 59) (hs : dtv.second ≤ 59)
    (hoff : dtv.offSec = some 0) :
    rfc2822Read (rfc2822 dtv) = some { dtv with usec := 0 } := by
  obtain ⟨y, mo, d, h, mi, sec, us, offo⟩ := dtv
  simp only at hy hy2 hm1 hm2 hd1 hd2 hh hmi hs hoff
  subst hoff
  have hast := @astimezoneUTC_zero y mo d h mi sec us hh hmi hs
  obtain ⟨a, b, c, habc, halpha⟩ := weekdayAbbrev_shape (dayOfWeek_lt y mo d)
  obtain ⟨m1, m2, m3, hmoeq, hmoread⟩ := monthAbbrev_shape hm1 hm2
  have hd99 : d ≤ 99 := by omega
  have hh99 : h ≤ 99 := by omega
  have hmi99 : mi ≤ 99 := by omega
  have hs99 : sec ≤ 99 := by omega
  simp only [rfc2822, hast, Option.getD_some, habc, hmoeq,
    strData_comma, strData_off, List.cons_append, List.nil_append,
    List.append_assoc]
  simp only [rfc2822Read, read2dig, parse2dig_pad2 hd99, parse2dig_pad2 hh99,
    parse2dig_pad2 hmi99, parse2dig_pad2 hs99, hmoread,
    takeWhile_digits (natToDecimal_digit y), dropWhile_digits (natToDecimal_digit y),
    natToDecimal_isEmpty, Bool.false_eq_true, if_false, halpha,
    eq_self_iff_true, if_true]
  rw [if_pos (by decide)]
  have hne : (('+' : Char) == '-') = false := by decide
  have hdv : digitVal '0' = 0 := by decide
  simp only [hne, Bool.false_eq_true, if_false, hdv, digitsToNat_natToDecimal]
  norm_num

/-- C8: for any string accepted by `iso_to_dt` that carries an explicit
offset or `Z` suffix, re-reading the RFC-2822 rendering of the parsed
result yields the same datetime with the sub-second field truncated, so
the denoted UTC instant is unchanged by the round trip. -/
theorem C8_rfc2822_roundtrip :
    ∀ (s : String) (dt : PyDateTime),
      iso_to_dt s = some dt → hasExplicitTZ s = true →
      rfc2822Read (rfc2822 dt) = some { dt with usec := 0 } ∧
      toInstantSec { dt with usec := 0 } = toInstantSec dt := by
  intro s dt hp htz
  obtain ⟨b1, b2, b3, b4, b5, b6, b7, b8, b9, boff⟩ := iso_to_dt_bounds hp
  refine ⟨rfc2822_roundtrip_core b1 b2 b3 b4 b5 b6 b7 b8 b9 boff, ?_⟩
  obtain ⟨y, mo, d, h, mi, sec, us, offo⟩ := dt
  simp only [toInstantSec]

/-- Witness for C8 at `"2025-09-18T10:22:00+05:30"`. -/
theorem C8_rfc2822_roundtrip_witness :
    rfc2822Read (rfc2822 ⟨2025, 9, 18, 4, 52, 0, 0, some 0⟩) =
      some { (⟨2025, 9, 18, 4, 52, 0, 0, some 0⟩ : PyDateTime) with usec := 0 } ∧
    toInstantSec { (⟨2025, 9, 18, 4, 52, 0, 0, some 0⟩ : PyDateTime) with usec := 0 } =
      toInstantSec ⟨2025, 9, 18, 4, 52, 0, 0, some 0⟩ :=
  C8_rfc2822_roundtrip "2025-09-18T10:22:00+05:30" ⟨2025, 9, 18, 4, 52, 0, 0, some 0⟩
    (by decide) (by decide)
end EasFeed
